import Mathlib

/-!
Shallow embedding of the execd runtime (a sandbox execution daemon), covering
the command registry, the file-tail streamer, background output seek, context
listing, kernel-spec search, interrupt/kill sequencing, the SQL executor and
the extra-environment loader.  Go strings are modelled as `List Char` or
`String` (byte-level behaviour over ASCII), machine integers as `Int`/`Nat`,
wall-clock instants as `Nat`, fallible operations as `Option`/`Except`, and
panics with an explicit outcome type.  File contents and database answers,
which the daemon reads from the outside world, enter the model as explicit
parameters.
-/

namespace Execd

/-- Modelled from the Go declaration used through the runtime package:
`type Language string`; its String method is the identity conversion
(the web controller converts request strings with `runtime.Language(...)`). -/
abbrev Language := String

/-! ## File-tail streamer (`readFromPos` in the runtime package) -/

/-- Line-terminator test from `readFromPos`: a byte is a terminator when it
is a newline or a carriage return. -/
def isLineTerm (c : Char) : Bool := c = '\n' || c = '\r'

/-- Read loop of `Controller.readFromPos`: consumes the remaining bytes one
by one, accumulating a buffer; on a terminator a nonempty buffer is emitted
as one line and the terminator is skipped; returns the emitted lines in
order together with the final (unterminated) buffer contents. -/
def readLoop : List Char → List Char → List String × List Char
  | [], buf => ([], buf)
  | b :: rest, buf =>
    if isLineTerm b then
      match buf with
      | [] => readLoop rest []
      | _ :: _ =>
        let r := readLoop rest []
        (String.mk buf :: r.1, r.2)
    else readLoop rest (buf ++ [b])

/-- Embedding of `Controller.readFromPos (mutex, filepath, startPos,
onExecute, flushIncomplete)`.  The file's current contents stand in for the
open file; the emitted `onExecute` calls are returned as a list.  The file
is read from `startPos` to end of file; `currentPos` counts the consumed
bytes and the final seek reports the file position.  When `flushIncomplete`
is false and an unterminated buffer remains, its starting offset is
returned; otherwise the end position is returned.  (The `TryLock` skip and
the open-failure early return are concurrency/IO paths outside this pure
model.) -/
def readFromPos (content : List Char) (startPos : Nat) (flushIncomplete : Bool) :
    List String × Nat :=
  let rest := content.drop startPos
  let r := readLoop rest []
  let currentPos := startPos + rest.length
  if flushIncomplete then
    (r.1 ++ (if r.2.isEmpty then [] else [String.mk r.2]), currentPos)
  else if r.2.isEmpty then (r.1, currentPos)
  else (r.1, currentPos - r.2.length)

example : readFromPos "ab\ncd".data 0 false = (["ab"], 3) := by decide
example : readFromPos "ab\ncd".data 0 true = (["ab", "cd"], 5) := by decide
example : readFromPos "ab\ncd".data 3 false = ([], 3) := by decide
example : readFromPos "p 10\rp 20\r".data 0 false = (["p 10", "p 20"], 10) := by decide
example : readFromPos "a\n\r\nb".data 0 true = (["a", "b"], 5) := by decide

/-- The unterminated buffer left by the read loop is a suffix of the bytes
it was given (initial buffer followed by the stream). -/
theorem readLoop_buf_suffix (bs : List Char) :
    ∀ buf, (readLoop bs buf).2 <:+ buf ++ bs := by
  induction bs with
  | nil => intro buf; simp [readLoop]
  | cons b rest ih =>
    intro buf
    by_cases hb : isLineTerm b
    · cases buf with
      | nil =>
        have h1 : (readLoop rest []).2 <:+ rest := by simpa using ih []
        have h2 : rest <:+ [] ++ b :: rest := by
          simp only [List.nil_append]
          exact List.suffix_cons b rest
        simpa [readLoop, hb] using h1.trans h2
      | cons x xs =>
        have h1 : (readLoop rest []).2 <:+ rest := by simpa using ih []
        have h2 : rest <:+ (x :: xs) ++ b :: rest :=
          (List.suffix_cons b rest).trans (List.suffix_append (x :: xs) (b :: rest))
        simpa [readLoop, hb] using h1.trans h2
    · have h1 := ih (buf ++ [b])
      have h2 : (buf ++ [b]) ++ rest = buf ++ b :: rest := by simp
      simpa [readLoop, hb, h2] using h1

/-- The unterminated buffer contains no line terminator, provided the
initial buffer contains none. -/
theorem readLoop_buf_noTerm (bs : List Char) :
    ∀ buf, (∀ c ∈ buf, isLineTerm c = false) →
      ∀ c ∈ (readLoop bs buf).2, isLineTerm c = false := by
  induction bs with
  | nil => intro buf h; simpa [readLoop] using h
  | cons b rest ih =>
    intro buf h
    by_cases hb : isLineTerm b
    · cases buf with
      | nil => simpa [readLoop, hb] using ih [] (by simp)
      | cons x xs => simpa [readLoop, hb] using ih [] (by simp)
    · have h' : ∀ c ∈ buf ++ [b], isLineTerm c = false := by
        intro c hc
        rcases List.mem_append.mp hc with hc | hc
        · exact h c hc
        · simp only [List.mem_singleton] at hc; subst hc
          simpa using hb
      simpa [readLoop, hb] using ih (buf ++ [b]) h'

/-- On a terminator-free stream the read loop emits nothing and simply
extends the buffer. -/
theorem readLoop_noTerm_eq (bs : List Char) :
    ∀ buf, (∀ c ∈ bs, isLineTerm c = false) →
      readLoop bs buf = ([], buf ++ bs) := by
  induction bs with
  | nil => intro buf _; simp [readLoop]
  | cons b rest ih =>
    intro buf h
    have hb : isLineTerm b = false := h b (by simp)
    have hrest : ∀ c ∈ rest, isLineTerm c = false := fun c hc => h c (by simp [hc])
    simp [readLoop, hb, ih (buf ++ [b]) hrest]

/-- Every line emitted by the read loop is free of line terminators,
provided the initial buffer is. -/
theorem readLoop_lines_noTerm (bs : List Char) :
    ∀ buf, (∀ c ∈ buf, isLineTerm c = false) →
      ∀ l ∈ (readLoop bs buf).1, ∀ c ∈ l.data, isLineTerm c = false := by
  induction bs with
  | nil => intro buf _; simp [readLoop]
  | cons b rest ih =>
    intro buf h
    by_cases hb : isLineTerm b
    · cases buf with
      | nil => simpa [readLoop, hb] using ih [] (by simp)
      | cons x xs =>
        intro l hl
        simp only [readLoop, hb, if_pos] at hl
        rcases List.mem_cons.mp hl with hl | hl
        · subst hl; simpa using h
        · exact ih [] (by simp) l hl
    · have h' : ∀ c ∈ buf ++ [b], isLineTerm c = false := by
        intro c hc
        rcases List.mem_append.mp hc with hc | hc
        · exact h c hc
        · simp only [List.mem_singleton] at hc; subst hc
          simpa using hb
      simpa [readLoop, hb] using ih (buf ++ [b]) h'

/-- Characterization of a periodic read: it emits the complete lines of the
unread region and returns the file length minus the length of the trailing
unterminated buffer (the buffer's starting offset; the file length itself
when the region ends with a terminator). -/
theorem readFromPos_false_eq (content : List Char) (p : Nat)
    (hp : p ≤ content.length) :
    readFromPos content p false =
      ((readLoop (content.drop p) []).1,
        content.length - (readLoop (content.drop p) []).2.length) := by
  have hlen : (content.drop p).length = content.length - p :=
    List.length_drop p content
  have hcur : p + (content.drop p).length = content.length := by omega
  have hsub : (readLoop (content.drop p) []).2.length ≤ (content.drop p).length := by
    have h1 : (readLoop (content.drop p) []).2 <:+ content.drop p := by
      simpa using readLoop_buf_suffix (content.drop p) []
    exact h1.length_le
  by_cases he : (readLoop (content.drop p) []).2.isEmpty
  · have he' : (readLoop (content.drop p) []).2.length = 0 := by
      simpa [List.isEmpty_iff] using he
    have hps : p + (content.length - p) = content.length := by omega
    simp [readFromPos, he, he', hps]
  · simp only [readFromPos, he, if_neg, Bool.false_eq_true, if_false]
    congr 1
    omega

/-- Characterization of a final read: it emits the complete lines followed
by the trailing partial line (when nonempty) and returns the file length. -/
theorem readFromPos_true_eq (content : List Char) (p : Nat)
    (hp : p ≤ content.length) :
    readFromPos content p true =
      ((readLoop (content.drop p) []).1 ++
        (if (readLoop (content.drop p) []).2.isEmpty then []
          else [String.mk (readLoop (content.drop p) []).2]),
        content.length) := by
  have hlen : (content.drop p).length = content.length - p :=
    List.length_drop p content
  have hcur : p + (content.drop p).length = content.length := by omega
  have hps : p + (content.length - p) = content.length := by omega
  simp [readFromPos, hps]

/-- C2: for every file state and read position within the file, a periodic
read of the tail streamer (flushIncomplete = false) never emits a trailing
partial line lacking a newline or carriage-return terminator: it returns the
starting offset of that partial line (so a re-read from the returned offset
sees exactly the same bytes and emits nothing), while the final read
(flushIncomplete = true) emits the complete lines followed by the trailing
partial exactly once as a final line; input is split on both terminators, so
no emitted line contains a newline or carriage return. -/
theorem tail_streamer_partial_line_contract (content : List Char) (p : Nat)
    (hp : p ≤ content.length) :
    ∃ part : List Char,
      content.drop (readFromPos content p false).2 = part ∧
      (∀ c ∈ part, isLineTerm c = false) ∧
      (readFromPos content p true).1 =
        (readFromPos content p false).1 ++
          (if part.isEmpty then [] else [String.mk part]) ∧
      (readFromPos content p true).2 = content.length ∧
      readFromPos content (readFromPos content p false).2 false =
        ([], (readFromPos content p false).2) ∧
      readFromPos content (readFromPos content p false).2 true =
        ((if part.isEmpty then [] else [String.mk part]), content.length) ∧
      (∀ l ∈ (readFromPos content p false).1, ∀ c ∈ l.data,
        isLineTerm c = false) := by
  refine ⟨(readLoop (content.drop p) []).2, ?_, ?_, ?_, ?_, ?_, ?_, ?_⟩
  · rw [readFromPos_false_eq content p hp]
    have hsuf : (readLoop (content.drop p) []).2 <:+ content := by
      have h1 : (readLoop (content.drop p) []).2 <:+ content.drop p := by
        simpa using readLoop_buf_suffix (content.drop p) []
      exact h1.trans (List.drop_suffix p content)
    exact (List.suffix_iff_eq_drop.mp hsuf).symm
  · exact readLoop_buf_noTerm (content.drop p) [] (by simp)
  · rw [readFromPos_false_eq content p hp, readFromPos_true_eq content p hp]
  · rw [readFromPos_true_eq content p hp]
  · have hq : (readFromPos content p false).2 =
        content.length - (readLoop (content.drop p) []).2.length := by
      rw [readFromPos_false_eq content p hp]
    have hqle : (readFromPos content p false).2 ≤ content.length := by omega
    have hdrop : content.drop (readFromPos content p false).2 =
        (readLoop (content.drop p) []).2 := by
      rw [hq]
      have hsuf : (readLoop (content.drop p) []).2 <:+ content := by
        have h1 : (readLoop (content.drop p) []).2 <:+ content.drop p := by
          simpa using readLoop_buf_suffix (content.drop p) []
        exact h1.trans (List.drop_suffix p content)
      exact (List.suffix_iff_eq_drop.mp hsuf).symm
    have hloop : readLoop (content.drop (readFromPos content p false).2) [] =
        ([], (readLoop (content.drop p) []).2) := by
      rw [hdrop]
      simpa using
        readLoop_noTerm_eq (readLoop (content.drop p) []).2 []
          (readLoop_buf_noTerm (content.drop p) [] (by simp))
    rw [readFromPos_false_eq content (readFromPos content p false).2 hqle, hloop]
    simp [hq]
  · have hq : (readFromPos content p false).2 =
        content.length - (readLoop (content.drop p) []).2.length := by
      rw [readFromPos_false_eq content p hp]
    have hqle : (readFromPos content p false).2 ≤ content.length := by omega
    have hdrop : content.drop (readFromPos content p false).2 =
        (readLoop (content.drop p) []).2 := by
      rw [hq]
      have hsuf : (readLoop (content.drop p) []).2 <:+ content := by
        have h1 : (readLoop (content.drop p) []).2 <:+ content.drop p := by
          simpa using readLoop_buf_suffix (content.drop p) []
        exact h1.trans (List.drop_suffix p content)
      exact (List.suffix_iff_eq_drop.mp hsuf).symm
    have hloop : readLoop (content.drop (readFromPos content p false).2) [] =
        ([], (readLoop (content.drop p) []).2) := by
      rw [hdrop]
      simpa using
        readLoop_noTerm_eq (readLoop (content.drop p) []).2 []
          (readLoop_buf_noTerm (content.drop p) [] (by simp))
    rw [readFromPos_true_eq content (readFromPos content p false).2 hqle, hloop]
    simp
  · rw [readFromPos_false_eq content p hp]
    exact readLoop_lines_noTerm (content.drop p) [] (by simp)

/-- Witness for the tail streamer contract at a concrete file state: the
content "ab(newline)cd" read from offset 0 leaves the partial line "cd". -/
theorem tail_streamer_partial_line_contract_witness :
    ∃ part : List Char,
      ("ab\ncd".data).drop (readFromPos "ab\ncd".data 0 false).2 = part ∧
      (∀ c ∈ part, isLineTerm c = false) ∧
      (readFromPos "ab\ncd".data 0 true).1 =
        (readFromPos "ab\ncd".data 0 false).1 ++
          (if part.isEmpty then [] else [String.mk part]) ∧
      (readFromPos "ab\ncd".data 0 true).2 = "ab\ncd".data.length ∧
      readFromPos "ab\ncd".data (readFromPos "ab\ncd".data 0 false).2 false =
        ([], (readFromPos "ab\ncd".data 0 false).2) ∧
      readFromPos "ab\ncd".data (readFromPos "ab\ncd".data 0 false).2 true =
        ((if part.isEmpty then [] else [String.mk part]), "ab\ncd".data.length) ∧
      (∀ l ∈ (readFromPos "ab\ncd".data 0 false).1, ∀ c ∈ l.data,
        isLineTerm c = false) :=
  tail_streamer_partial_line_contract "ab\ncd".data 0 (by decide)

/-! ## Command registry (`commandKernel`, ctrl.go / command_status.go) -/

/-- Embedding of the `commandKernel` record from ctrl.go.  Wall-clock times
are abstract instants; `finishedAt` and `exitCode` model the nil-able Go
pointers. -/
structure CommandKernel where
  pid : Int
  stdoutPath : String
  stderrPath : String
  startedAt : Nat
  finishedAt : Option Nat := none
  exitCode : Option Int := none
  errMsg : String := ""
  running : Bool
  isBackground : Bool
  content : String := ""
deriving Repr, DecidableEq

/-- The controller's command map (session id to command context); the Go map
is modelled as an association list whose insert replaces an existing key. -/
abbrev CmdMap := List (String × CommandKernel)

/-- Association-list lookup standing in for the Go map read
`commandClientMap[session]`. -/
def cmdLookup : CmdMap → String → Option CommandKernel
  | [], _ => none
  | (k, v) :: rest, s => if k = s then some v else cmdLookup rest s

/-- Embedding of `Controller.storeCommandKernel`: registers (or replaces)
the command context for a session under the write lock. -/
def storeCommandKernel (m : CmdMap) (s : String) (kernel : CommandKernel) : CmdMap :=
  match m with
  | [] => [(s, kernel)]
  | (k, v) :: rest =>
    if k = s then (k, kernel) :: rest
    else (k, v) :: storeCommandKernel rest s kernel

/-- Embedding of `Controller.markCommandFinished`: under the write lock the
exit code, error message, running flag and finish time are all set in one
atomic update; a missing session leaves the registry untouched. -/
def markCommandFinished (m : CmdMap) (s : String) (exitCode : Int)
    (errMsg : String) (now : Nat) : CmdMap :=
  match m with
  | [] => []
  | (k, v) :: rest =>
    if k = s then
      (k, { v with exitCode := some exitCode, errMsg := errMsg,
                   running := false, finishedAt := some now }) :: rest
    else (k, v) :: markCommandFinished rest s exitCode errMsg now

/-- The command context stored by `runCommand` and `runBackgroundCommand`
right after a successful start: running, no exit code, no finish time. -/
def freshCommandKernel (pid : Int) (outPath errPath : String) (startedAt : Nat)
    (code : String) (isBackground : Bool) : CommandKernel :=
  { pid := pid, stdoutPath := outPath, stderrPath := errPath,
    startedAt := startedAt, running := true, content := code,
    isBackground := isBackground }

/-- One atomic (lock-guarded) mutation of the command registry, as performed
by the command executor paths in part_000. -/
inductive CmdStep : CmdMap → CmdMap → Prop where
  /-- `runCommand` stores a running foreground context after a successful
  start. -/
  | storeForeground (m : CmdMap) (s : String) (pid : Int) (op ep : String)
      (t : Nat) (code : String) :
      CmdStep m (storeCommandKernel m s (freshCommandKernel pid op ep t code false))
  /-- `runBackgroundCommand` stores a running background context after a
  successful start (both log paths are the combined output file). -/
  | storeBackground (m : CmdMap) (s : String) (pid : Int) (op : String)
      (t : Nat) (code : String) :
      CmdStep m (storeCommandKernel m s (freshCommandKernel pid op op t code true))
  /-- When the background spawn fails, `runBackgroundCommand` stores the
  context with `running` already false and only then calls
  `markCommandFinished`, releasing the lock in between. -/
  | storeBackgroundStartFailure (m : CmdMap) (s : String) (op : String)
      (t : Nat) (code : String) :
      CmdStep m (storeCommandKernel m s
        { freshCommandKernel (-1) op op t code true with running := false })
  /-- `markCommandFinished` records the exit in one locked update. -/
  | markFinished (m : CmdMap) (s : String) (ec : Int) (msg : String) (now : Nat) :
      CmdStep m (markCommandFinished m s ec msg now)

/-- Registry states reachable from the empty registry through the executor's
lock-guarded mutations. -/
def ReachableCmd (m : CmdMap) : Prop :=
  Relation.ReflTransGen CmdStep [] m

/-- The registry mutations excluding the background start-failure store
(which transiently registers a context outside both claimed states). -/
inductive CmdStepSafe : CmdMap → CmdMap → Prop where
  /-- Foreground store of a running context. -/
  | storeForeground (m : CmdMap) (s : String) (pid : Int) (op ep : String)
      (t : Nat) (code : String) :
      CmdStepSafe m (storeCommandKernel m s (freshCommandKernel pid op ep t code false))
  /-- Background store of a running context. -/
  | storeBackground (m : CmdMap) (s : String) (pid : Int) (op : String)
      (t : Nat) (code : String) :
      CmdStepSafe m (storeCommandKernel m s (freshCommandKernel pid op op t code true))
  /-- Atomic exit bookkeeping. -/
  | markFinished (m : CmdMap) (s : String) (ec : Int) (msg : String) (now : Nat) :
      CmdStepSafe m (markCommandFinished m s ec msg now)

/-- Registry states reachable without the background start-failure store. -/
def ReachableCmdSafe (m : CmdMap) : Prop :=
  Relation.ReflTransGen CmdStepSafe [] m

/-- First claimed state: running with exit code and finish time nil. -/
def runningState (k : CommandKernel) : Bool :=
  k.running && k.exitCode.isNone && k.finishedAt.isNone

/-- Second claimed state: not running with exit code and finish time set. -/
def finishedState (k : CommandKernel) : Bool :=
  !k.running && k.exitCode.isSome && k.finishedAt.isSome

/-- Exactly one of the two claimed lifecycle states holds. -/
def exactlyOneState (k : CommandKernel) : Bool :=
  (runningState k && !finishedState k) || (!runningState k && finishedState k)

/-- The invariant the code maintains on all paths: exit code and finish time
are both nil, or the context is fully finished. -/
def weakState (k : CommandKernel) : Bool :=
  (k.exitCode.isNone && k.finishedAt.isNone) || finishedState k

/-- Membership in the registry after a store: the new binding or an old one. -/
theorem mem_storeCommandKernel (m : CmdMap) (s : String) (kernel : CommandKernel) :
    ∀ p ∈ storeCommandKernel m s kernel, p = (s, kernel) ∨ p ∈ m := by
  induction m with
  | nil => intro p hp; simp [storeCommandKernel] at hp; simp [hp]
  | cons kv rest ih =>
    intro p hp
    by_cases hk : kv.1 = s
    · simp only [storeCommandKernel, hk, if_pos] at hp
      rcases List.mem_cons.mp hp with hp | hp
      · exact Or.inl hp
      · right; exact List.mem_cons_of_mem kv hp
    · simp only [storeCommandKernel, hk, if_neg, Bool.false_eq_true, if_false] at hp
      rcases List.mem_cons.mp hp with hp | hp
      · right; rw [hp]; exact List.mem_cons_self kv rest
      · rcases ih p hp with h | h
        · exact Or.inl h
        · exact Or.inr (List.mem_cons_of_mem kv h)

/-- Membership in the registry after an exit record: an old binding, or a
binding whose kernel has just been marked finished. -/
theorem mem_markCommandFinished (m : CmdMap) (s : String) (ec : Int)
    (msg : String) (now : Nat) :
    ∀ p ∈ markCommandFinished m s ec msg now,
      p ∈ m ∨ (p.2.running = false ∧ p.2.exitCode = some ec ∧
        p.2.finishedAt = some now) := by
  induction m with
  | nil => intro p hp; simp [markCommandFinished] at hp
  | cons kv rest ih =>
    intro p hp
    by_cases hk : kv.1 = s
    · simp only [markCommandFinished, hk, if_pos] at hp
      rcases List.mem_cons.mp hp with hp | hp
      · right; rw [hp]; exact ⟨rfl, rfl, rfl⟩
      · left; exact List.mem_cons_of_mem kv hp
    · simp only [markCommandFinished, hk, if_neg, Bool.false_eq_true, if_false] at hp
      rcases List.mem_cons.mp hp with hp | hp
      · left; rw [hp]; exact List.mem_cons_self kv rest
      · rcases ih p hp with h | h
        · exact Or.inl (List.mem_cons_of_mem kv h)
        · exact Or.inr h

/-- Looking up the marked session after `markCommandFinished` yields the
kernel with all four exit fields set by that single update. -/
theorem cmdLookup_markCommandFinished (m : CmdMap) (s : String) (ec : Int)
    (msg : String) (now : Nat) (kernel : CommandKernel)
    (hk : cmdLookup m s = some kernel) :
    cmdLookup (markCommandFinished m s ec msg now) s =
      some { kernel with exitCode := some ec, errMsg := msg,
                         running := false, finishedAt := some now } := by
  induction m with
  | nil => simp [cmdLookup] at hk
  | cons kv rest ih =>
    by_cases hkv : kv.1 = s
    · have h2 : kv.2 = kernel := by
        simpa [cmdLookup, hkv] using hk
      simp [markCommandFinished, hkv, cmdLookup, h2]
    · simp only [cmdLookup, hkv, if_neg, Bool.false_eq_true, if_false] at hk
      simp only [markCommandFinished, hkv, if_neg, Bool.false_eq_true, if_false,
        cmdLookup]
      exact ih hk

/-- C1 (amended): every registered command session always has exit code and
finish time both nil or is fully finished; along traces that avoid the
background start-failure store, exactly one of the two claimed states
(running with nil exit data, or finished with exit code and finish time set)
holds for every registered session; and `markCommandFinished` installs exit
code, error message, running=false and finish time in one atomic
lock-guarded update. -/
theorem commandRegistry_lifecycle_invariant (m : CmdMap) :
    (ReachableCmd m → ∀ p ∈ m, weakState p.2 = true) ∧
    (ReachableCmdSafe m → ∀ p ∈ m, exactlyOneState p.2 = true) ∧
    (∀ s kernel ec msg now, cmdLookup m s = some kernel →
      cmdLookup (markCommandFinished m s ec msg now) s =
        some { kernel with exitCode := some ec, errMsg := msg,
                           running := false, finishedAt := some now }) := by
  refine ⟨?_, ?_, ?_⟩
  · intro hreach
    induction hreach with
    | refl => simp
    | tail hab hbc ih =>
      cases hbc with
      | storeForeground s pid op ep t code =>
        intro p hp
        rcases mem_storeCommandKernel _ _ _ p hp with hp | hp
        · rw [hp]; simp [weakState, freshCommandKernel]
        · exact ih p hp
      | storeBackground s pid op t code =>
        intro p hp
        rcases mem_storeCommandKernel _ _ _ p hp with hp | hp
        · rw [hp]; simp [weakState, freshCommandKernel]
        · exact ih p hp
      | storeBackgroundStartFailure s op t code =>
        intro p hp
        rcases mem_storeCommandKernel _ _ _ p hp with hp | hp
        · rw [hp]; simp [weakState, freshCommandKernel]
        · exact ih p hp
      | markFinished s ec msg now =>
        intro p hp
        rcases mem_markCommandFinished _ _ _ _ _ p hp with hp | ⟨hr, he, hf⟩
        · exact ih p hp
        · simp [weakState, finishedState, hr, he, hf]
  · intro hreach
    induction hreach with
    | refl => simp
    | tail hab hbc ih =>
      cases hbc with
      | storeForeground s pid op ep t code =>
        intro p hp
        rcases mem_storeCommandKernel _ _ _ p hp with hp | hp
        · rw [hp]; simp [exactlyOneState, runningState, finishedState, freshCommandKernel]
        · exact ih p hp
      | storeBackground s pid op t code =>
        intro p hp
        rcases mem_storeCommandKernel _ _ _ p hp with hp | hp
        · rw [hp]; simp [exactlyOneState, runningState, finishedState, freshCommandKernel]
        · exact ih p hp
      | markFinished s ec msg now =>
        intro p hp
        rcases mem_markCommandFinished _ _ _ _ _ p hp with hp | ⟨hr, he, hf⟩
        · exact ih p hp
        · simp [exactlyOneState, runningState, finishedState, hr, he, hf]
  · intro s kernel ec msg now hk
    exact cmdLookup_markCommandFinished m s ec msg now kernel hk

/-- Concrete registry after a foreground store, for the C1 witness. -/
def cmdDemoMap : CmdMap :=
  storeCommandKernel [] "s" (freshCommandKernel 7 "o" "e" 0 "c" false)

/-- Concrete registry after the command exits, for the C1 witness. -/
def cmdDemoFinished : CmdMap := markCommandFinished cmdDemoMap "s" 0 "" 5

/-- Witness for the registry invariant on a concrete store/finish trace. -/
theorem commandRegistry_lifecycle_invariant_witness :
    (∀ p ∈ cmdDemoFinished, weakState p.2 = true) ∧
    (∀ p ∈ cmdDemoFinished, exactlyOneState p.2 = true) ∧
    cmdLookup (markCommandFinished cmdDemoFinished "s" 3 "boom" 9) "s" =
      some { freshCommandKernel 7 "o" "e" 0 "c" false with
             exitCode := some 3, errMsg := "boom", running := false,
             finishedAt := some 9 } := by
  refine ⟨(commandRegistry_lifecycle_invariant cmdDemoFinished).1 ?_,
          (commandRegistry_lifecycle_invariant cmdDemoFinished).2.1 ?_, ?_⟩
  · exact Relation.ReflTransGen.tail
      (Relation.ReflTransGen.single (CmdStep.storeForeground [] "s" 7 "o" "e" 0 "c"))
      (CmdStep.markFinished cmdDemoMap "s" 0 "" 5)
  · exact Relation.ReflTransGen.tail
      (Relation.ReflTransGen.single (CmdStepSafe.storeForeground [] "s" 7 "o" "e" 0 "c"))
      (CmdStepSafe.markFinished cmdDemoMap "s" 0 "" 5)
  · have h := (commandRegistry_lifecycle_invariant cmdDemoFinished).2.2 "s"
      { freshCommandKernel 7 "o" "e" 0 "c" false with
        exitCode := some 0, errMsg := "", running := false, finishedAt := some 5 }
      3 "boom" 9 (by decide)
    simpa using h

/-- Concrete registry reached through the background start-failure store,
refuting the claimed two-state invariant. -/
def cmdFailMap : CmdMap :=
  storeCommandKernel [] "s"
    { freshCommandKernel (-1) "o" "o" 0 "c" true with running := false }

/-- C1 counterexample: after the background start-failure store (before the
subsequent `markCommandFinished`), the registered session is in neither
claimed state: running=false while exit code and finish time are still nil. -/
theorem commandRegistry_exactlyOne_transient_cex :
    ReachableCmd cmdFailMap ∧
    ¬ (∀ p ∈ cmdFailMap, exactlyOneState p.2 = true) := by
  constructor
  · exact Relation.ReflTransGen.single
      (CmdStep.storeBackgroundStartFailure [] "s" "o" 0 "c")
  · decide

/-! ## Background output seek (`SeekBackgroundCommandOutput`) -/

/-- Embedding of `Controller.SeekBackgroundCommandOutput (session, cursor)`.
The combined output file enters as its current contents (`none` when it
cannot be opened); the cursor is the int64 seek offset.  Seeking beyond end
of file is legal: the read returns no bytes and the position stays at the
cursor, so the reported position is the maximum of cursor and file length. -/
def seekBackgroundCommandOutput (m : CmdMap) (session : String)
    (file : Option (List Char)) (cursor : Int) :
    Except String (List Char × Int) :=
  match cmdLookup m session with
  | none => .error "command not found"
  | some kernel =>
    if !kernel.isBackground then
      .error "command is not running in background"
    else
      match file with
      | none => .error "error open combined output file"
      | some data =>
        if cursor < 0 then .error "error seek file"
        else .ok (data.drop cursor.toNat,
          Int.ofNat (max cursor.toNat data.length))

example :
    seekBackgroundCommandOutput
      [("s", freshCommandKernel 7 "o" "o" 0 "c" true)] "s"
      (some "hello".data) 2 = .ok ("llo".data, 5) := rfl
example :
    seekBackgroundCommandOutput
      [("s", freshCommandKernel 7 "o" "o" 0 "c" true)] "s"
      (some "hello".data) 9 = .ok ([], 9) := rfl

/-- C3: for every registered background command session and nonnegative
cursor, the seek returns the slice of the combined output file from the
cursor to the new cursor, the new cursor is at least the old one, and an
immediate repeat with the returned cursor on the unchanged file returns no
bytes and the same cursor. -/
theorem seekBackgroundCommandOutput_contract (m : CmdMap) (session : String)
    (data : List Char) (cursor : Int) (kernel : CommandKernel)
    (hk : cmdLookup m session = some kernel)
    (hb : kernel.isBackground = true) (hc : 0 ≤ cursor) :
    ∃ bytes newCursor,
      seekBackgroundCommandOutput m session (some data) cursor =
        .ok (bytes, newCursor) ∧
      cursor ≤ newCursor ∧
      bytes = (data.take newCursor.toNat).drop cursor.toNat ∧
      seekBackgroundCommandOutput m session (some data) newCursor =
        .ok ([], newCursor) := by
  have hneg : ¬ cursor < 0 := by omega
  refine ⟨data.drop cursor.toNat, Int.ofNat (max cursor.toNat data.length),
    ?_, ?_, ?_, ?_⟩
  · simp [seekBackgroundCommandOutput, hk, hb, hneg]
  · have h1 : cursor.toNat ≤ max cursor.toNat data.length := Nat.le_max_left _ _
    simp only [Int.ofNat_eq_coe]
    omega
  · have h1 : data.length ≤ max cursor.toNat data.length := Nat.le_max_right _ _
    rw [List.take_of_length_le (by exact h1)]
  · have htn : (Int.ofNat (max cursor.toNat data.length)).toNat =
        max cursor.toNat data.length := rfl
    have hneg2 : ¬ (Int.ofNat (max cursor.toNat data.length)) < 0 := by
      simp only [Int.ofNat_eq_coe]
      omega
    have hdrop : data.drop (max cursor.toNat data.length) = [] :=
      List.drop_eq_nil_of_le (Nat.le_max_right _ _)
    have hmax : max (max cursor.toNat data.length) data.length =
        max cursor.toNat data.length := by omega
    simp [seekBackgroundCommandOutput, hk, hb, hneg2, htn, hdrop, hmax]

/-- Witness for the seek contract on a concrete registry and file. -/
theorem seekBackgroundCommandOutput_contract_witness :
    ∃ bytes newCursor,
      seekBackgroundCommandOutput
          [("s", freshCommandKernel 7 "o" "o" 0 "c" true)] "s"
          (some "hello".data) 2 =
        .ok (bytes, newCursor) ∧
      (2 : Int) ≤ newCursor ∧
      bytes = (("hello".data).take newCursor.toNat).drop (2 : Int).toNat ∧
      seekBackgroundCommandOutput
          [("s", freshCommandKernel 7 "o" "o" 0 "c" true)] "s"
          (some "hello".data) newCursor =
        .ok ([], newCursor) :=
  seekBackgroundCommandOutput_contract
    [("s", freshCommandKernel 7 "o" "o" 0 "c" true)] "s" "hello".data 2
    (freshCommandKernel 7 "o" "o" 0 "c" true) (by decide) (by decide) (by decide)

/-! ## Kernel context registry and listing (context.go) -/

/-- Embedding of the `jupyterKernel` record from ctrl.go (the HTTP client
and the busy mutex carry no registry-relevant state and are omitted). -/
structure JupyterKernel where
  kernelID : String
  language : Language
deriving Repr, DecidableEq

/-- Embedding of `CodeContext` from types.go. -/
structure CodeContext where
  id : String
  language : Language
deriving Repr, DecidableEq

/-- Kernel-context part of the controller state: the session-to-kernel map
(whose values are nil-able pointers, hence `Option`) and the language to
default-session map. -/
structure CtxState where
  jupyterClientMap : List (String × Option JupyterKernel)
  defaultLanguageJupyterSessions : List (Language × String)
deriving Repr, DecidableEq

/-- The controller's initial kernel-context state (`NewController`). -/
def emptyCtxState : CtxState := ⟨[], []⟩

/-- Go map read `jupyterClientMap[s]`: a missing key reads as a nil pointer,
indistinguishable from a stored nil. -/
def jcmLookup : List (String × Option JupyterKernel) → String → Option JupyterKernel
  | [], _ => none
  | (k, v) :: rest, s => if k = s then v else jcmLookup rest s

/-- Embedding of `Controller.storeJupyterKernel` (a Go map write: replace an
existing binding or add a new one). -/
def storeJupyterKernel (m : List (String × Option JupyterKernel)) (s : String)
    (kernel : Option JupyterKernel) : List (String × Option JupyterKernel) :=
  match m with
  | [] => [(s, kernel)]
  | (k, v) :: rest =>
    if k = s then (k, kernel) :: rest
    else (k, v) :: storeJupyterKernel rest s kernel

/-- Go map read `defaultLanguageJupyterSessions[language]`: a missing key
reads as the zero value, the empty string. -/
def defaultLookup : List (Language × String) → Language → String
  | [], _ => ""
  | (l, v) :: rest, language => if l = language then v else defaultLookup rest language

/-- Go map write `defaultLanguageJupyterSessions[language] = session`. -/
def defaultStore (m : List (Language × String)) (language : Language)
    (session : String) : List (Language × String) :=
  match m with
  | [] => [(language, session)]
  | (l, v) :: rest =>
    if l = language then (l, session) :: rest
    else (l, v) :: defaultStore rest language session

/-- Embedding of `Controller.getJupyterKernel`. -/
def getJupyterKernel (st : CtxState) (s : String) : Option JupyterKernel :=
  jcmLookup st.jupyterClientMap s

/-- Embedding of `Controller.listLanguageContexts`: collects every non-nil
session-map entry of the language, then appends the default session when the
default map has a nonempty entry for the language. -/
def listLanguageContexts (st : CtxState) (language : Language) : List CodeContext :=
  let contexts := st.jupyterClientMap.filterMap fun p =>
    match p.2 with
    | some kernel =>
      if kernel.language = language then some ⟨p.1, language⟩ else none
    | none => none
  let defaultContext := defaultLookup st.defaultLanguageJupyterSessions language
  if defaultContext ≠ "" then contexts ++ [⟨defaultContext, language⟩]
  else contexts

/-- Registry effect of a successful explicit `Controller.CreateContext`:
the new kernel is stored in the session map only (the Jupyter HTTP workflow
that produced `sessionID`/`kernelID` is external). -/
def createContextStore (st : CtxState) (language : Language)
    (sessionID kernelID : String) : CtxState :=
  { st with jupyterClientMap :=
      storeJupyterKernel st.jupyterClientMap sessionID (some ⟨kernelID, language⟩) }

/-- Registry effect of a successful `Controller.createDefaultLanguageContext`:
the session id is recorded in the default map and the kernel is also stored
in the session map (both under one lock acquisition). -/
def createDefaultLanguageContext (st : CtxState) (language : Language)
    (sessionID kernelID : String) : CtxState :=
  { defaultLanguageJupyterSessions :=
      defaultStore st.defaultLanguageJupyterSessions language sessionID,
    jupyterClientMap :=
      storeJupyterKernel st.jupyterClientMap sessionID (some ⟨kernelID, language⟩) }

/-- State after creating explicit contexts for each session id in order. -/
def buildExplicitContexts (sids : List String) (language : Language)
    (kernelID : String) : CtxState :=
  sids.foldl (fun st sid => createContextStore st language sid kernelID) emptyCtxState

/-- State after N explicit creates followed by the implicit default create. -/
def contextsAfterCreates (sids : List String) (language : Language)
    (did kid : String) : CtxState :=
  createDefaultLanguageContext (buildExplicitContexts sids language kid)
    language did kid

/-- The duplicate-listing state of the C4 counterexample: one implicit
default context for python and no explicit contexts. -/
def ctxDupState : CtxState :=
  createDefaultLanguageContext emptyCtxState "python" "d" "k"

/-- A Go map write with a fresh key appends the binding. -/
theorem storeJupyterKernel_fresh (m : List (String × Option JupyterKernel))
    (s : String) (kernel : Option JupyterKernel)
    (hs : s ∉ m.map Prod.fst) :
    storeJupyterKernel m s kernel = m ++ [(s, kernel)] := by
  induction m with
  | nil => simp [storeJupyterKernel]
  | cons kv rest ih =>
    simp only [List.map_cons, List.mem_cons] at hs
    push_neg at hs
    have hk : ¬ kv.1 = s := fun h => hs.1 h.symm
    simp only [storeJupyterKernel, hk, Bool.false_eq_true, if_neg, if_false,
      List.cons_append, List.cons.injEq, true_and]
    exact ih hs.2

/-- The session map built by the explicit creates, for pairwise distinct
fresh session ids, is exactly one binding per id in order. -/
theorem buildExplicitContexts_map (sids : List String) (language : Language)
    (kid : String) (hnd : sids.Nodup) :
    (buildExplicitContexts sids language kid).jupyterClientMap =
      sids.map (fun s => (s, some (⟨kid, language⟩ : JupyterKernel))) ∧
    (buildExplicitContexts sids language kid).defaultLanguageJupyterSessions = [] := by
  have key : ∀ (l : List String) (st : CtxState), l.Nodup →
      (∀ s ∈ l, s ∉ st.jupyterClientMap.map Prod.fst) →
      (l.foldl (fun st sid => createContextStore st language sid kid) st).jupyterClientMap =
        st.jupyterClientMap ++ l.map (fun s => (s, some (⟨kid, language⟩ : JupyterKernel))) ∧
      (l.foldl (fun st sid => createContextStore st language sid kid) st).defaultLanguageJupyterSessions =
        st.defaultLanguageJupyterSessions := by
    intro l
    induction l with
    | nil => intro st _ _; simp
    | cons a rest ih =>
      intro st hnd hfresh
      have ha : a ∉ st.jupyterClientMap.map Prod.fst := hfresh a (by simp)
      have hstore : (createContextStore st language a kid).jupyterClientMap =
          st.jupyterClientMap ++ [(a, some (⟨kid, language⟩ : JupyterKernel))] := by
        simpa [createContextStore] using
          storeJupyterKernel_fresh st.jupyterClientMap a _ ha
      have hnd' : rest.Nodup := (List.nodup_cons.mp hnd).2
      have hanotin : a ∉ rest := (List.nodup_cons.mp hnd).1
      have hfresh' : ∀ s ∈ rest,
          s ∉ (createContextStore st language a kid).jupyterClientMap.map Prod.fst := by
        intro s hsr
        rw [hstore]
        simp only [List.map_append, List.mem_append, List.map_cons, List.map_nil,
          List.mem_singleton, not_or]
        refine ⟨hfresh s (by simp [hsr]), ?_⟩
        intro h
        exact hanotin (by rwa [h] at hsr)
      have := ih (createContextStore st language a kid) hnd' hfresh'
      rcases this with ⟨h1, h2⟩
      constructor
      · rw [List.foldl_cons, h1, hstore]
        simp
      · rw [List.foldl_cons, h2]
        simp [createContextStore]
  have := key sids emptyCtxState hnd (by simp [emptyCtxState])
  simpa [buildExplicitContexts, emptyCtxState] using this

/-- Shape of the listing after N explicit creates and the implicit default
create: each explicit session once, then the default session twice. -/
theorem listLanguageContexts_afterCreates_eq (sids : List String) (L : Language)
    (did kid : String) (hnd : sids.Nodup) (hdid : did ∉ sids) (hne : did ≠ "") :
    listLanguageContexts (contextsAfterCreates sids L did kid) L =
      sids.map (fun s => (⟨s, L⟩ : CodeContext)) ++ [⟨did, L⟩, ⟨did, L⟩] := by
  obtain ⟨hmap, hdef⟩ := buildExplicitContexts_map sids L kid hnd
  have hfresh : did ∉ (buildExplicitContexts sids L kid).jupyterClientMap.map Prod.fst := by
    rw [hmap]
    simp only [List.map_map]
    intro h
    rcases List.mem_map.mp h with ⟨s, hs, hseq⟩
    exact hdid (by simpa using hseq ▸ hs)
  have hmap2 : (contextsAfterCreates sids L did kid).jupyterClientMap =
      sids.map (fun s => (s, some (⟨kid, L⟩ : JupyterKernel))) ++
        [(did, some (⟨kid, L⟩ : JupyterKernel))] := by
    simp only [contextsAfterCreates, createDefaultLanguageContext]
    rw [storeJupyterKernel_fresh _ _ _ hfresh, hmap]
  have hdef2 : (contextsAfterCreates sids L did kid).defaultLanguageJupyterSessions =
      [(L, did)] := by
    simp only [contextsAfterCreates, createDefaultLanguageContext]
    rw [hdef]
    rfl
  have hfm : ∀ l : List String,
      (l.map (fun s => (s, some (⟨kid, L⟩ : JupyterKernel)))).filterMap
        (fun p : String × Option JupyterKernel =>
          match p.2 with
          | some kernel =>
            if kernel.language = L then some (⟨p.1, L⟩ : CodeContext) else none
          | none => none) =
        l.map (fun s => (⟨s, L⟩ : CodeContext)) := by
    intro l
    induction l with
    | nil => rfl
    | cons a rest ih => simp [ih]
  simp only [listLanguageContexts, hmap2, hdef2, List.filterMap_append, hfm]
  simp [defaultLookup, hne]

/-- C4 (amended): for every language L, after creating N explicit kernel
contexts of L with pairwise distinct fresh session ids and then the implicit
default context for L with a fresh nonempty id, listing L returns N+2
entries, all of language L: each explicit context appears exactly once and
the default context appears exactly twice (once from the session map and
once appended from the default-session map). -/
theorem listLanguageContexts_after_creates (sids : List String) (L : Language)
    (did kid : String) (hnd : sids.Nodup) (hdid : did ∉ sids) (hne : did ≠ "") :
    (listLanguageContexts (contextsAfterCreates sids L did kid) L).length =
      sids.length + 2 ∧
    (∀ s ∈ sids,
      (listLanguageContexts (contextsAfterCreates sids L did kid) L).count
        ⟨s, L⟩ = 1) ∧
    (listLanguageContexts (contextsAfterCreates sids L did kid) L).count
      ⟨did, L⟩ = 2 ∧
    (∀ c ∈ listLanguageContexts (contextsAfterCreates sids L did kid) L,
      c.language = L) := by
  rw [listLanguageContexts_afterCreates_eq sids L did kid hnd hdid hne]
  have hinj : Function.Injective (fun s => (⟨s, L⟩ : CodeContext)) := by
    intro a b h
    simpa using congrArg CodeContext.id h
  refine ⟨by simp, ?_, ?_, ?_⟩
  · intro s hs
    have hnodup : (sids.map (fun s => (⟨s, L⟩ : CodeContext))).Nodup :=
      (List.nodup_map_iff hinj).mpr hnd
    have hmem : (⟨s, L⟩ : CodeContext) ∈ sids.map (fun s => (⟨s, L⟩ : CodeContext)) :=
      List.mem_map.mpr ⟨s, hs, rfl⟩
    have hsd : s ≠ did := fun h => hdid (h ▸ hs)
    rw [List.count_append, List.count_eq_one_of_mem hnodup hmem]
    have : ((⟨s, L⟩ : CodeContext)) ∉ ([⟨did, L⟩, ⟨did, L⟩] : List CodeContext) := by
      simp [hsd]
    rw [List.count_eq_zero.mpr this]
  · have hnotin : (⟨did, L⟩ : CodeContext) ∉
        sids.map (fun s => (⟨s, L⟩ : CodeContext)) := by
      intro h
      rcases List.mem_map.mp h with ⟨s, hs, hseq⟩
      have : s = did := by simpa using congrArg CodeContext.id hseq
      exact hdid (this ▸ hs)
    rw [List.count_append, List.count_eq_zero.mpr hnotin]
    simp [List.count_cons]
  · intro c hc
    rcases List.mem_append.mp hc with hc | hc
    · rcases List.mem_map.mp hc with ⟨s, _, hseq⟩
      rw [← hseq]
    · rcases List.mem_cons.mp hc with hc | hc
      · rw [hc]
      · simp only [List.mem_singleton] at hc
        rw [hc]

/-- Witness for the amended listing law at two explicit contexts plus the
default context for python. -/
theorem listLanguageContexts_after_creates_witness :
    (listLanguageContexts (contextsAfterCreates ["a", "b"] "python" "d" "k")
      "python").length = ["a", "b"].length + 2 ∧
    (∀ s ∈ ["a", "b"],
      (listLanguageContexts (contextsAfterCreates ["a", "b"] "python" "d" "k")
        "python").count ⟨s, "python"⟩ = 1) ∧
    (listLanguageContexts (contextsAfterCreates ["a", "b"] "python" "d" "k")
      "python").count ⟨"d", "python"⟩ = 2 ∧
    (∀ c ∈ listLanguageContexts (contextsAfterCreates ["a", "b"] "python" "d" "k")
      "python", c.language = "python") :=
  listLanguageContexts_after_creates ["a", "b"] "python" "d" "k"
    (by decide) (by decide) (by decide)

/-- C4 counterexample: with N = 0 explicit contexts and one implicit default
python context, the listing returns 2 entries (the claim predicts N+1 = 1)
and the default context appears twice, not once. -/
theorem listLanguageContexts_default_duplicate_cex :
    listLanguageContexts ctxDupState "python" =
      [⟨"d", "python"⟩, ⟨"d", "python"⟩] ∧
    (listLanguageContexts ctxDupState "python").length ≠ 1 ∧
    (listLanguageContexts ctxDupState "python").count ⟨"d", "python"⟩ ≠ 1 := by
  refine ⟨rfl, by decide, by decide⟩

/-! ## Kernel spec search (`searchKernel` in ctrl.go) -/

/-- The part of a Jupyter kernelspec inspected by the search
(`spec.Spec.Language`). -/
structure KernelSpec where
  language : String
deriving Repr, DecidableEq

/-- Embedding of `Controller.searchKernel` over the kernelspecs map in a
fixed iteration order (Go map iteration order is unspecified; the list order
stands for one iteration order).  The loop never breaks, so a later match
overwrites an earlier one, and the spec named python3 is skipped. -/
def searchKernel (specs : List (String × KernelSpec)) (language : Language) :
    Except String String :=
  if specs.isEmpty then .error "no kernel specs found"
  else
    let kernelName := specs.foldl (fun acc p =>
      if p.1 = "python3" then acc
      else if p.2.language = language then p.1 else acc) ""
    if kernelName = "" then .error "no kernel specs found"
    else .ok kernelName

/-- The last entry in iteration order whose spec language matches and whose
name is not python3 (later entries take precedence). -/
def lastLangMatch (specs : List (String × KernelSpec)) (language : Language) :
    Option String :=
  match specs with
  | [] => none
  | p :: rest =>
    match lastLangMatch rest language with
    | some n => some n
    | none =>
      if p.1 ≠ "python3" ∧ p.2.language = language then some p.1 else none

/-- The search loop keeps the accumulator unless a later match overwrites it. -/
theorem searchFold_eq (specs : List (String × KernelSpec)) (language : Language) :
    ∀ acc, specs.foldl (fun acc p =>
        if p.1 = "python3" then acc
        else if p.2.language = language then p.1 else acc) acc =
      (lastLangMatch specs language).getD acc := by
  induction specs with
  | nil => intro acc; rfl
  | cons p rest ih =>
    intro acc
    rw [List.foldl_cons, ih]
    by_cases hp : p.1 = "python3"
    · have hpred : ¬ (p.1 ≠ "python3" ∧ p.2.language = language) := by
        intro h; exact h.1 hp
      cases hrest : lastLangMatch rest language with
      | none => simp [lastLangMatch, hrest, hp, hpred]
      | some n => simp [lastLangMatch, hrest, hp]
    · by_cases hl : p.2.language = language
      · have hpred : p.1 ≠ "python3" ∧ p.2.language = language := ⟨hp, hl⟩
        cases hrest : lastLangMatch rest language with
        | none => simp [lastLangMatch, hrest, hp, hl, hpred]
        | some n => simp [lastLangMatch, hrest, hp, hl]
      · have hpred : ¬ (p.1 ≠ "python3" ∧ p.2.language = language) := by
          intro h; exact hl h.2
        cases hrest : lastLangMatch rest language with
        | none => simp [lastLangMatch, hrest, hp, hl, hpred]
        | some n => simp [lastLangMatch, hrest, hp, hl]

/-- A successful last match is a registered non-python3 entry of the target
language. -/
theorem lastLangMatch_mem (specs : List (String × KernelSpec)) (language : Language) :
    ∀ n, lastLangMatch specs language = some n →
      n ≠ "python3" ∧ ∃ spec, (n, spec) ∈ specs ∧ spec.language = language := by
  induction specs with
  | nil => intro n h; simp [lastLangMatch] at h
  | cons p rest ih =>
    intro n h
    cases hrest : lastLangMatch rest language with
    | some m =>
      rw [lastLangMatch, hrest] at h
      have hm : m = n := by simpa using h
      obtain ⟨h1, spec, h2, h3⟩ := ih m hrest
      rw [← hm]
      exact ⟨h1, spec, List.mem_cons_of_mem p h2, h3⟩
    | none =>
      rw [lastLangMatch, hrest] at h
      by_cases hpred : p.1 ≠ "python3" ∧ p.2.language = language
      · rw [if_pos hpred] at h
        obtain rfl : p.1 = n := by simpa using h
        exact ⟨hpred.1, p.2, by simp, hpred.2⟩
      · rw [if_neg hpred] at h
        simp at h

/-- C5 (amended): for kernelspec maps with nonempty names, the lookup
returns the last name in iteration order whose spec language equals the
target language, never selecting the spec named python3, and fails with the
no-kernel-specs error when no spec other than python3 matches; any returned
name is a registered non-python3 entry matching the language. -/
theorem searchKernel_last_match (specs : List (String × KernelSpec))
    (language : Language) (hne : ∀ p ∈ specs, p.1 ≠ "") :
    searchKernel specs language =
      (match lastLangMatch specs language with
        | some n => .ok n
        | none => .error "no kernel specs found") ∧
    (∀ n, searchKernel specs language = .ok n →
      n ≠ "python3" ∧ ∃ spec, (n, spec) ∈ specs ∧ spec.language = language) := by
  have hmain : searchKernel specs language =
      (match lastLangMatch specs language with
        | some n => Except.ok n
        | none => Except.error "no kernel specs found") := by
    cases specs with
    | nil => rfl
    | cons p rest =>
      rw [searchKernel]
      simp only [List.isEmpty_cons, Bool.false_eq_true, if_false]
      rw [searchFold_eq (p :: rest) language ""]
      cases hlast : lastLangMatch (p :: rest) language with
      | none => simp
      | some n =>
        have hn : n ≠ "" := by
          obtain ⟨_, spec, hmem, _⟩ := lastLangMatch_mem (p :: rest) language n hlast
          intro h
          exact hne (n, spec) hmem h
        simp [hn]
  refine ⟨hmain, ?_⟩
  intro n h
  rw [hmain] at h
  cases hlast : lastLangMatch specs language with
  | none => rw [hlast] at h; simp at h
  | some m =>
    rw [hlast] at h
    have hm : m = n := by simpa using h
    rw [← hm]
    exact lastLangMatch_mem specs language m hlast

/-- Kernelspecs listing with two non-python3 entries matching python, used
by the C5 witness and counterexample. -/
def demoSpecs : List (String × KernelSpec) :=
  [("a", ⟨"python"⟩), ("python3", ⟨"python"⟩), ("b", ⟨"python"⟩)]

/-- Witness for the amended kernel search on a concrete listing: the last
matching non-python3 name wins. -/
theorem searchKernel_last_match_witness :
    (searchKernel demoSpecs "python" =
      (match lastLangMatch demoSpecs "python" with
        | some n => .ok n
        | none => .error "no kernel specs found")) ∧
    (∀ n, searchKernel demoSpecs "python" = .ok n →
      n ≠ "python3" ∧ ∃ spec, (n, spec) ∈ demoSpecs ∧ spec.language = "python") :=
  searchKernel_last_match demoSpecs "python" (by decide)

/-- C5 counterexample: with two matching non-python3 specs, the lookup
returns the later name b, not the first matching name a. -/
theorem searchKernel_first_match_cex :
    searchKernel demoSpecs "python" = .ok "b" ∧
    (demoSpecs.filter
      (fun p => decide (p.1 ≠ "python3") && decide (p.2.language = "python"))).head? =
        some ("a", ⟨"python"⟩) ∧
    ("b" : String) ≠ "a" :=
  ⟨rfl, rfl, by decide⟩

/-! ## GetContext (context.go) -/

/-- Outcome of running a Go function that may panic. -/
inductive GoOutcome (α : Type) where
  | ok (value : α)
  | panicked
deriving Repr, DecidableEq

/-- Embedding of `Controller.GetContext`: it reads `kernel.language` from
the result of `getJupyterKernel` without a nil check, so a session with no
registered kernel context dereferences a nil pointer and panics. -/
def GetContext (st : CtxState) (session : String) : GoOutcome CodeContext :=
  match getJupyterKernel st session with
  | none => .panicked
  | some kernel => .ok ⟨session, kernel.language⟩

/-- C9: for every session id with no registered kernel context, GetContext
dereferences a nil pointer and panics instead of returning an error or a
not-found value; when the id is present it returns the context, so the
function is total exactly under that precondition. -/
theorem getContext_panics_on_missing (st : CtxState) (session : String) :
    (getJupyterKernel st session = none →
      GetContext st session = .panicked) ∧
    (∀ kernel, getJupyterKernel st session = some kernel →
      GetContext st session = .ok ⟨session, kernel.language⟩) := by
  constructor
  · intro h; simp [GetContext, h]
  · intro kernel h; simp [GetContext, h]

/-- Witness: GetContext panics on the empty registry and succeeds on a
registered session. -/
theorem getContext_panics_on_missing_witness :
    GetContext emptyCtxState "missing" = .panicked ∧
    GetContext ⟨[("s", some ⟨"k", "python"⟩)], []⟩ "s" =
      .ok ⟨"s", "python"⟩ :=
  ⟨(getContext_panics_on_missing emptyCtxState "missing").1 rfl,
   (getContext_panics_on_missing ⟨[("s", some ⟨"k", "python"⟩)], []⟩ "s").2
     ⟨"k", "python"⟩ rfl⟩

/-! ## SQL executor (sql.go) -/

/-- ASCII white space recognized by `strings.Fields` (the source operates on
byte strings; SQL keywords never contain multibyte white space). -/
def isGoSpace (c : Char) : Bool :=
  c = ' ' || c = '\t' || c = '\n' || c = '\x0b' || c = '\x0c' || c = '\r'

/-- Accumulator loop of `strings.Fields`. -/
def goFieldsAux : List Char → List Char → List (List Char)
  | [], acc => if acc.isEmpty then [] else [acc.reverse]
  | c :: rest, acc =>
    if isGoSpace c then
      if acc.isEmpty then goFieldsAux rest []
      else acc.reverse :: goFieldsAux rest []
    else goFieldsAux rest (c :: acc)

/-- Embedding of `strings.Fields`: splits around runs of white space. -/
def goFields (s : List Char) : List (List Char) := goFieldsAux s []

example : goFields "  select *  from t ".data =
  ["select".data, "*".data, "from".data, "t".data] := by decide

/-- ASCII uppercase conversion as `strings.ToUpper` performs on ASCII input. -/
def goToUpperChar (c : Char) : Char :=
  if 'a' ≤ c ∧ c ≤ 'z' then Char.ofNat (c.toNat - 32) else c

/-- Embedding of `Controller.getQueryType`: uppercases the first whitespace
field of the query; indexing `Fields(query)[0]` on an empty field slice is
Go's index-out-of-range panic, modelled as `none`. -/
def getQueryType (query : String) : Option String :=
  match goFields query.data with
  | [] => none
  | w :: _ => some (String.mk (w.map goToUpperChar))

example : getQueryType "select 1" = some "SELECT" := by decide
example : getQueryType "  UpDate t set x=1" = some "UPDATE" := by decide
example : getQueryType "   " = none := by decide

/-- A cell value inside a marshalled `QueryResult` row: SQL NULL, a string
cell (the select path renders every non-nil driver value with Sprintf %v),
or an int64 (the update path's affected-row count). -/
inductive SQLCell where
  | null
  | str (s : String)
  | num (n : Int)
deriving Repr, DecidableEq

/-- Lowercase hexadecimal digit, as encoding/json emits in escapes. -/
def hexDigit (n : Nat) : Char :=
  if n < 10 then Char.ofNat (48 + n) else Char.ofNat (87 + n)

/-- Escape of one character as Go's encoding/json default encoder performs:
quote, backslash, newline, carriage return and tab use two-character
escapes; other control characters and the HTML-sensitive characters use
hexadecimal escapes.  (U+2028/U+2029 handling is outside this ASCII model.) -/
def goJsonEscapeChar (c : Char) : List Char :=
  if c = '"' then ['\\', '"']
  else if c = '\\' then ['\\', '\\']
  else if c = '\n' then ['\\', 'n']
  else if c = '\r' then ['\\', 'r']
  else if c = '\t' then ['\\', 't']
  else if c = '<' then ['\\', 'u', '0', '0', '3', 'c']
  else if c = '>' then ['\\', 'u', '0', '0', '3', 'e']
  else if c = '&' then ['\\', 'u', '0', '0', '2', '6']
  else if c.toNat < 32 then
    ['\\', 'u', '0', '0', hexDigit (c.toNat / 16), hexDigit (c.toNat % 16)]
  else [c]

/-- A JSON string literal as encoding/json emits it. -/
def goJsonString (s : String) : String :=
  "\"" ++ String.mk ((s.data.map goJsonEscapeChar).flatten) ++ "\""

/-- Marshalled cell. -/
def encodeCell : SQLCell → String
  | .null => "null"
  | .str s => goJsonString s
  | .num n => toString n

/-- Embedding of `json.Marshal` on the `QueryResult` struct: fields in
declaration order (columns, rows, error), each tagged omitempty, compact
object and array syntax as Go emits it. -/
def encodeQueryResult (columns : List String) (rows : List (List SQLCell))
    (errMsg : String) : String :=
  let fieldList :=
    (if columns.isEmpty then []
      else ["\"columns\":[" ++
        String.intercalate "," (columns.map goJsonString) ++ "]"]) ++
    (if rows.isEmpty then []
      else ["\"rows\":[" ++
        String.intercalate "," (rows.map (fun row =>
          "[" ++ String.intercalate "," (row.map encodeCell) ++ "]")) ++ "]"]) ++
    (if errMsg = "" then [] else ["\"error\":" ++ goJsonString errMsg])
  "\x7b" ++ String.intercalate "," fieldList ++ "\x7d"

example :
    encodeQueryResult ["a"] [[SQLCell.null, SQLCell.str "x"]] "" =
      "\x7b\"columns\":[\"a\"],\"rows\":[[null,\"x\"]]\x7d" := by decide

/-- A runtime hook invocation recorded in call order (the SQL executor uses
only the init, result, error and complete hooks). -/
inductive HookEvent where
  | init (session : String)
  | result (payload : List (String × String)) (count : Int)
  | error (ename evalue : String)
  | complete (durationMs : Nat)
deriving Repr

/-- Outcome of `db.QueryContext` plus `rows.Columns` plus row scanning for a
SELECT, as supplied by the database driver.  Each non-nil cell arrives
already rendered by Sprintf %v; `none` is a SQL NULL. -/
inductive SelectOutcome where
  | queryError (msg : String)
  | columnsError (msg : String)
  | ok (columns : List String)
      (rowOutcomes : List (Except String (List (Option String))))
deriving Repr

/-- External interactions of one `runSQL` call. -/
structure SQLEnv where
  sessionID : String
  initErr : Option String
  pingErr : Option String
  select : SelectOutcome
  exec : Except String Int
  durationMs : Nat
deriving Repr

/-- Row loop of `executeSelectSQLQuery`: scans rows in order, converting nil
cells to JSON null and all other values to their rendered strings; the first
scan error aborts the whole call. -/
def scanRows : List (Except String (List (Option String))) →
    Except String (List (List SQLCell))
  | [] => .ok []
  | .error msg :: _ => .error msg
  | .ok row :: rest =>
    match scanRows rest with
    | .error msg => .error msg
    | .ok rows => .ok ((row.map fun c =>
        match c with
        | none => SQLCell.null
        | some s => SQLCell.str s) :: rows)

/-- Embedding of `Controller.executeSelectSQLQuery`: returns the emitted
hook events and the function's error return value. -/
def executeSelectSQLQuery (env : SQLEnv) : List HookEvent × Option String :=
  match env.select with
  | .queryError msg => ([.error "DBQueryError" msg], none)
  | .columnsError msg => ([.error "DBQueryError" msg], none)
  | .ok columns rowOutcomes =>
    match scanRows rowOutcomes with
    | .error msg => ([.error "RowScanError" msg], none)
    | .ok rows =>
      ([.result [("text/plain", encodeQueryResult columns rows "")] 1,
        .complete env.durationMs], none)

/-- Embedding of `Controller.executeUpdateSQLQuery`. -/
def executeUpdateSQLQuery (env : SQLEnv) : List HookEvent × Option String :=
  match env.exec with
  | .error msg => ([.error "DBExecError" msg], some msg)
  | .ok affected =>
    ([.result [("text/plain",
        encodeQueryResult ["affected_rows"] [[SQLCell.num affected]] "")] 1,
      .complete env.durationMs], none)

/-- Embedding of `Controller.runSQL`: emits the init hook with a fresh uuid,
initializes and pings the database, classifies the statement by the
uppercased first field and dispatches; a statement with no fields panics
inside `getQueryType` (slice index out of range). -/
def runSQL (env : SQLEnv) (code : String) :
    GoOutcome (List HookEvent × Option String) :=
  match env.initErr with
  | some msg => .ok ([.init env.sessionID, .error "DBInitError" msg], some msg)
  | none =>
    match env.pingErr with
    | some msg => .ok ([.init env.sessionID, .error "DBPingError" msg], some msg)
    | none =>
      match getQueryType code with
      | none => .panicked
      | some t =>
        if t = "SELECT" then
          .ok ((.init env.sessionID) :: (executeSelectSQLQuery env).1,
            (executeSelectSQLQuery env).2)
        else
          .ok ((.init env.sessionID) :: (executeUpdateSQLQuery env).1,
            (executeUpdateSQLQuery env).2)

/-- C7: for every SQL execute request that reaches classification with a
working database, the statement is classified by its first whitespace field
uppercased; a SELECT runs as a query whose payload is the marshalled
columns/rows object (nil cells passing through as JSON null), every other
statement runs as an execute whose payload is the affected-rows object; in
both cases exactly one result hook fires with the text/plain JSON payload
and count 1, followed by exactly one complete hook with the duration. -/
theorem runSQL_contract (env : SQLEnv) (code : String) (t : String)
    (hinit : env.initErr = none) (hping : env.pingErr = none)
    (ht : getQueryType code = some t) :
    (∀ w ws, goFields code.data = w :: ws →
      t = String.mk (w.map goToUpperChar)) ∧
    (∀ columns rowOutcomes rows,
      t = "SELECT" → env.select = .ok columns rowOutcomes →
      scanRows rowOutcomes = .ok rows →
      runSQL env code = .ok
        ([.init env.sessionID,
          .result [("text/plain", encodeQueryResult columns rows "")] 1,
          .complete env.durationMs], none)) ∧
    (∀ affected, t ≠ "SELECT" → env.exec = .ok affected →
      runSQL env code = .ok
        ([.init env.sessionID,
          .result [("text/plain",
            encodeQueryResult ["affected_rows"] [[SQLCell.num affected]] "")] 1,
          .complete env.durationMs], none)) ∧
    encodeQueryResult ["a"] [[SQLCell.null, SQLCell.str "x"]] "" =
      "\x7b\"columns\":[\"a\"],\"rows\":[[null,\"x\"]]\x7d" := by
  refine ⟨?_, ?_, ?_, by decide⟩
  · intro w ws hw
    rw [getQueryType, hw] at ht
    simpa using ht.symm
  · intro columns rowOutcomes rows hts hsel hscan
    subst hts
    simp [runSQL, hinit, hping, ht, executeSelectSQLQuery, hsel, hscan]
  · intro affected hts hexec
    simp [runSQL, hinit, hping, ht, hts, executeUpdateSQLQuery, hexec]

/-- Concrete environment for the SQL witnesses. -/
def demoSQLEnv : SQLEnv :=
  { sessionID := "sid", initErr := none, pingErr := none,
    select := .ok ["a"] [.ok [none, some "x"]], exec := .ok 3, durationMs := 5 }

/-- Witness for the SQL contract at a concrete select statement. -/
theorem runSQL_contract_witness :
    (∀ w ws, goFields ("select * from t" : String).data = w :: ws →
      "SELECT" = String.mk (w.map goToUpperChar)) ∧
    (∀ columns rowOutcomes rows,
      "SELECT" = "SELECT" → demoSQLEnv.select = .ok columns rowOutcomes →
      scanRows rowOutcomes = .ok rows →
      runSQL demoSQLEnv "select * from t" = .ok
        ([.init demoSQLEnv.sessionID,
          .result [("text/plain", encodeQueryResult columns rows "")] 1,
          .complete demoSQLEnv.durationMs], none)) ∧
    (∀ affected, "SELECT" ≠ "SELECT" → demoSQLEnv.exec = .ok affected →
      runSQL demoSQLEnv "select * from t" = .ok
        ([.init demoSQLEnv.sessionID,
          .result [("text/plain",
            encodeQueryResult ["affected_rows"] [[SQLCell.num affected]] "")] 1,
          .complete demoSQLEnv.durationMs], none)) ∧
    encodeQueryResult ["a"] [[SQLCell.null, SQLCell.str "x"]] "" =
      "\x7b\"columns\":[\"a\"],\"rows\":[[null,\"x\"]]\x7d" :=
  runSQL_contract demoSQLEnv "select * from t" "SELECT" rfl rfl (by decide)

/-- A stream of only white space produces no fields. -/
theorem goFieldsAux_all_space (s : List Char)
    (h : ∀ c ∈ s, isGoSpace c = true) : goFieldsAux s [] = [] := by
  induction s with
  | nil => rfl
  | cons c rest ih =>
    have hc := h c (by simp)
    have hrest : ∀ d ∈ rest, isGoSpace d = true := fun d hd => h d (by simp [hd])
    simp [goFieldsAux, hc, ih hrest]

/-- C10: for every SQL execute request whose code contains only white space
(or nothing), the classifier indexes the first element of an empty field
list, so getQueryType has no value and runSQL panics instead of returning an
error value once the database is reachable. -/
theorem runSQL_panics_on_blank (env : SQLEnv) (code : String)
    (hblank : ∀ c ∈ code.data, isGoSpace c = true) :
    getQueryType code = none ∧
    (env.initErr = none → env.pingErr = none →
      runSQL env code = .panicked) := by
  have hfields : goFields code.data = [] :=
    goFieldsAux_all_space code.data hblank
  have hq : getQueryType code = none := by
    rw [getQueryType, hfields]
  refine ⟨hq, ?_⟩
  intro hinit hping
  simp [runSQL, hinit, hping, hq]

/-- Witness: the all-whitespace statement "  " makes runSQL panic. -/
theorem runSQL_panics_on_blank_witness :
    getQueryType "  " = none ∧
    (demoSQLEnv.initErr = none → demoSQLEnv.pingErr = none →
      runSQL demoSQLEnv "  " = .panicked) :=
  runSQL_panics_on_blank demoSQLEnv "  " (by decide)

/-! ## Interrupt and kill sequencing (interrupt.go, POSIX build) -/

/-- Result of sending a signal through `os.Process.Signal`, distinguished
the way the code distinguishes it: by the error text.  `errOther` stands for
an error whose text contains neither "already finished" nor "no such
process". -/
inductive SigResult where
  | ok
  | errAlreadyFinished
  | errNoSuchProcess
  | errOther (msg : String)
deriving Repr, DecidableEq

/-- The code's check `strings.Contains(err.Error(), "already finished")`. -/
def isAlreadyFinished : SigResult → Bool
  | .errAlreadyFinished => true
  | _ => false

/-- The probe loop's check for either confirmation phrase. -/
def isGoneErr : SigResult → Bool
  | .errAlreadyFinished => true
  | .errNoSuchProcess => true
  | _ => false

/-- Outcome of the `process.Wait` race against the 3-second timer after a
successful SIGTERM: completed with a nil error, completed with a non-nil
error, or timed out (the child is still alive after 3 s). -/
inductive WaitOutcome where
  | doneOk
  | doneErr
  | timeout3s
deriving Repr, DecidableEq

/-- Operating-system responses consumed by one killPid call. -/
structure KillEnv where
  termResult : SigResult
  waitOutcome : WaitOutcome
  killResult : SigResult
  probe1 : SigResult
  probe2 : SigResult
  probe3 : SigResult
deriving Repr, DecidableEq

/-- One signal dispatched to the operating system: the kill(2) target (a
positive target addresses the process itself, a negative target would
address the process group, as the signal relay in runCommand does with
`syscall.Kill(-pid, sig)`) and the signal number (15 SIGTERM, 9 SIGKILL,
0 probe). -/
structure SignalSend where
  target : Int
  signo : Nat
deriving Repr, DecidableEq

/-- What a killPid call did: the signals sent in order and the returned
error (`none` is the nil error). -/
structure KillTrace where
  signalsSent : List SignalSend
  result : Option String
deriving Repr, DecidableEq

/-- The probe loop of killPid: up to three signal-0 probes at 50 ms
intervals; a probe whose error text confirms termination returns early with
a nil error; otherwise the loop falls through to the still-running error. -/
def killProbeLoop (pid : Int) (env : KillEnv) : List SignalSend × Option String :=
  if isGoneErr env.probe1 then ([⟨pid, 0⟩], none)
  else if isGoneErr env.probe2 then ([⟨pid, 0⟩, ⟨pid, 0⟩], none)
  else if isGoneErr env.probe3 then ([⟨pid, 0⟩, ⟨pid, 0⟩, ⟨pid, 0⟩], none)
  else ([⟨pid, 0⟩, ⟨pid, 0⟩, ⟨pid, 0⟩], some "might still be running")

/-- SIGKILL phase of killPid, entered with the signals already sent. -/
def killPhase (pid : Int) (env : KillEnv) (pre : List SignalSend) : KillTrace :=
  match env.killResult with
  | .ok =>
    let probe := killProbeLoop pid env
    ⟨pre ++ ⟨pid, 9⟩ :: probe.1, probe.2⟩
  | r =>
    if isAlreadyFinished r then ⟨pre ++ [⟨pid, 9⟩], none⟩
    else ⟨pre ++ [⟨pid, 9⟩], some "failed to kill process"⟩

/-- Embedding of `Controller.killPid` on POSIX: SIGTERM to the pid; on a
clean SIGTERM, wait up to 3 s for a graceful exit; otherwise SIGKILL to the
pid followed by the probe loop.  Every signal is sent to the pid itself —
never to the process group.  (`os.FindProcess` never fails on Unix, so that
branch is absent.) -/
def killPid (pid : Int) (env : KillEnv) : KillTrace :=
  match env.termResult with
  | .ok =>
    match env.waitOutcome with
    | .doneOk => ⟨[⟨pid, 15⟩], none⟩
    | .doneErr => killPhase pid env [⟨pid, 15⟩]
    | .timeout3s => killPhase pid env [⟨pid, 15⟩]
  | r =>
    if isAlreadyFinished r then ⟨[⟨pid, 15⟩], none⟩
    else killPhase pid env [⟨pid, 15⟩]

/-- Action taken by `Controller.Interrupt`. -/
inductive InterruptAction where
  | jupyterInterrupt (kernelID : String)
  | killCommand (trace : KillTrace)
  | noSuchSession
deriving Repr, DecidableEq

/-- Embedding of `Controller.Interrupt`: a kernel context receives a Jupyter
interrupt, a command context gets killPid on its recorded pid, and any other
session id fails with the no-such-session error. -/
def Interrupt (st : CtxState) (cmdMap : CmdMap) (sessionID : String)
    (env : KillEnv) : InterruptAction :=
  match getJupyterKernel st sessionID with
  | some kernel => .jupyterInterrupt kernel.kernelID
  | none =>
    match cmdLookup cmdMap sessionID with
    | some kernel => .killCommand (killPid kernel.pid env)
    | none => .noSuchSession

/-- Every signal killPid sends is addressed to the pid itself. -/
theorem killPid_targets_pid (pid : Int) (env : KillEnv) :
    ∀ s ∈ (killPid pid env).signalsSent, s.target = pid := by
  have hprobe : ∀ s ∈ (killProbeLoop pid env).1, s.target = pid := by
    unfold killProbeLoop
    by_cases h1 : isGoneErr env.probe1 = true <;>
      by_cases h2 : isGoneErr env.probe2 = true <;>
        by_cases h3 : isGoneErr env.probe3 = true <;>
          simp [h1, h2, h3]
  have hphase : ∀ pre, (∀ s ∈ pre, SignalSend.target s = pid) →
      ∀ s ∈ (killPhase pid env pre).signalsSent, s.target = pid := by
    intro pre hpre s hs
    unfold killPhase at hs
    cases hkill : env.killResult with
    | ok =>
      rw [hkill] at hs
      simp only [List.mem_append, List.mem_cons] at hs
      rcases hs with hs | hs | hs
      · exact hpre s hs
      · rw [hs]
      · exact hprobe s hs
    | errAlreadyFinished =>
      rw [hkill] at hs
      simp only [isAlreadyFinished, if_pos, List.mem_append,
        List.mem_singleton] at hs
      rcases hs with hs | hs
      · exact hpre s hs
      · rw [hs]
    | errNoSuchProcess =>
      rw [hkill] at hs
      simp only [isAlreadyFinished, Bool.false_eq_true, if_neg, if_false,
        List.mem_append, List.mem_singleton] at hs
      rcases hs with hs | hs
      · exact hpre s hs
      · rw [hs]
    | errOther msg =>
      rw [hkill] at hs
      simp only [isAlreadyFinished, Bool.false_eq_true, if_neg, if_false,
        List.mem_append, List.mem_singleton] at hs
      rcases hs with hs | hs
      · exact hpre s hs
      · rw [hs]
  intro s hs
  unfold killPid at hs
  cases hterm : env.termResult with
  | ok =>
    rw [hterm] at hs
    cases hwait : env.waitOutcome with
    | doneOk =>
      rw [hwait] at hs
      simp only [List.mem_singleton] at hs
      rw [hs]
    | doneErr =>
      rw [hwait] at hs
      exact hphase [⟨pid, 15⟩] (by simp) s hs
    | timeout3s =>
      rw [hwait] at hs
      exact hphase [⟨pid, 15⟩] (by simp) s hs
  | errAlreadyFinished =>
    rw [hterm] at hs
    simp only [isAlreadyFinished, if_pos, List.mem_singleton] at hs
    rw [hs]
  | errNoSuchProcess =>
    rw [hterm] at hs
    simp only [isAlreadyFinished, Bool.false_eq_true, if_neg, if_false] at hs
    exact hphase [⟨pid, 15⟩] (by simp) s hs
  | errOther msg =>
    rw [hterm] at hs
    simp only [isAlreadyFinished, Bool.false_eq_true, if_neg, if_false] at hs
    exact hphase [⟨pid, 15⟩] (by simp) s hs

/-- C6 (amended): interrupt(id) sends a Jupyter interrupt when id names a
kernel context; when id names a command context it signals the command's
process (the pid — not the process group): SIGTERM first, then SIGKILL when
the child is still alive after the 3-second wait, then up to three signal-0
probes at 50 ms intervals, returning the still-running error when no probe
confirms termination; any other id fails with the no-such-session error. -/
theorem interrupt_dispatch_and_kill_sequence (st : CtxState) (cmdMap : CmdMap)
    (sid : String) (env : KillEnv) :
    (∀ kernel, getJupyterKernel st sid = some kernel →
      Interrupt st cmdMap sid env = .jupyterInterrupt kernel.kernelID) ∧
    (∀ kernel, getJupyterKernel st sid = none →
      cmdLookup cmdMap sid = some kernel →
      Interrupt st cmdMap sid env = .killCommand (killPid kernel.pid env)) ∧
    (getJupyterKernel st sid = none → cmdLookup cmdMap sid = none →
      Interrupt st cmdMap sid env = .noSuchSession) ∧
    (∀ pid, (killPid pid env).signalsSent.head? = some ⟨pid, 15⟩) ∧
    (∀ pid, env.termResult = .ok → env.waitOutcome = .timeout3s →
      env.killResult = .ok →
      (killPid pid env).signalsSent =
        ⟨pid, 15⟩ :: ⟨pid, 9⟩ :: (killProbeLoop pid env).1 ∧
      (killProbeLoop pid env).1.length ≤ 3 ∧
      (∀ p ∈ (killProbeLoop pid env).1, p = (⟨pid, 0⟩ : SignalSend)) ∧
      (isGoneErr env.probe1 = false → isGoneErr env.probe2 = false →
        isGoneErr env.probe3 = false →
        (killPid pid env).result = some "might still be running")) ∧
    (∀ pid, env.termResult = .ok → env.waitOutcome = .doneOk →
      killPid pid env = ⟨[⟨pid, 15⟩], none⟩) ∧
    (∀ pid, ∀ s ∈ (killPid pid env).signalsSent, s.target = pid) := by
  refine ⟨?_, ?_, ?_, ?_, ?_, ?_, fun pid => killPid_targets_pid pid env⟩
  · intro kernel h
    simp [Interrupt, h]
  · intro kernel h1 h2
    simp [Interrupt, h1, h2]
  · intro h1 h2
    simp [Interrupt, h1, h2]
  · intro pid
    unfold killPid
    cases hterm : env.termResult with
    | ok =>
      cases hwait : env.waitOutcome with
      | doneOk => rfl
      | doneErr => unfold killPhase; cases env.killResult <;> simp [isAlreadyFinished]
      | timeout3s => unfold killPhase; cases env.killResult <;> simp [isAlreadyFinished]
    | errAlreadyFinished => simp [isAlreadyFinished]
    | errNoSuchProcess =>
      unfold killPhase
      cases env.killResult <;> simp [isAlreadyFinished]
    | errOther msg =>
      unfold killPhase
      cases env.killResult <;> simp [isAlreadyFinished]
  · intro pid hterm hwait hkill
    refine ⟨?_, ?_, ?_, ?_⟩
    · simp [killPid, hterm, hwait, killPhase, hkill]
    · unfold killProbeLoop
      by_cases h1 : isGoneErr env.probe1 = true <;>
        by_cases h2 : isGoneErr env.probe2 = true <;>
          by_cases h3 : isGoneErr env.probe3 = true <;>
            simp [h1, h2, h3]
    · unfold killProbeLoop
      by_cases h1 : isGoneErr env.probe1 = true <;>
        by_cases h2 : isGoneErr env.probe2 = true <;>
          by_cases h3 : isGoneErr env.probe3 = true <;>
            simp [h1, h2, h3]
    · intro h1 h2 h3
      simp [killPid, hterm, hwait, killPhase, hkill, killProbeLoop, h1, h2, h3]
  · intro pid hterm hwait
    simp [killPid, hterm, hwait]

/-- Concrete inputs for the interrupt witness: a command session with pid 42
and an operating system that keeps the process alive through every probe. -/
def aliveKillEnv : KillEnv :=
  { termResult := .ok, waitOutcome := .timeout3s, killResult := .ok,
    probe1 := .ok, probe2 := .ok, probe3 := .ok }

/-- Command registry with one session of pid 42 for the interrupt witness. -/
def demoCmdMap : CmdMap := [("cmd", freshCommandKernel 42 "o" "e" 0 "c" false)]

/-- Witness for the interrupt contract at concrete registries: the command
session is killed through SIGTERM, SIGKILL and three failed probes. -/
theorem interrupt_dispatch_and_kill_sequence_witness :
    Interrupt emptyCtxState demoCmdMap "cmd" aliveKillEnv =
      .killCommand (killPid 42 aliveKillEnv) ∧
    (killPid 42 aliveKillEnv).signalsSent.head? = some ⟨42, 15⟩ ∧
    (killPid 42 aliveKillEnv).result = some "might still be running" ∧
    Interrupt emptyCtxState demoCmdMap "ghost" aliveKillEnv = .noSuchSession :=
  ⟨(interrupt_dispatch_and_kill_sequence emptyCtxState demoCmdMap "cmd"
      aliveKillEnv).2.1 (freshCommandKernel 42 "o" "e" 0 "c" false) rfl rfl,
   (interrupt_dispatch_and_kill_sequence emptyCtxState demoCmdMap "cmd"
      aliveKillEnv).2.2.2.1 42,
   ((interrupt_dispatch_and_kill_sequence emptyCtxState demoCmdMap "cmd"
      aliveKillEnv).2.2.2.2.1 42 rfl rfl rfl).2.2.2 rfl rfl rfl,
   (interrupt_dispatch_and_kill_sequence emptyCtxState demoCmdMap "ghost"
      aliveKillEnv).2.2.1 rfl rfl⟩

/-- C6 counterexample: killPid addresses every signal to the pid itself;
no signal is ever sent to the process group (target −pid), so the claim
that the process group is killed fails on the code. -/
theorem killPid_not_process_group_cex :
    (killPid 42 aliveKillEnv).signalsSent =
      [⟨42, 15⟩, ⟨42, 9⟩, ⟨42, 0⟩, ⟨42, 0⟩, ⟨42, 0⟩] ∧
    ¬ ∃ s ∈ (killPid 42 aliveKillEnv).signalsSent, s.target = -42 := by
  exact ⟨rfl, by decide⟩

/-! ## Extra-environment loader (env.go) and os.Expand -/

/-- Embedding of `strings.Split(data, "\n")`. -/
def splitLinesLF (s : List Char) : List (List Char) :=
  match s with
  | [] => [[]]
  | c :: rest =>
    if c = '\n' then [] :: splitLinesLF rest
    else
      match splitLinesLF rest with
      | [] => [[c]]
      | l :: ls => (c :: l) :: ls

example : splitLinesLF "a=1\n\n#x".data = ["a=1".data, [], "#x".data] := by decide

/-- Embedding of `strings.TrimSpace` (ASCII white space; the env files at
hand are byte-oriented). -/
def goTrimSpace (s : List Char) : List Char :=
  ((s.dropWhile isGoSpace).reverse.dropWhile isGoSpace).reverse

/-- Embedding of `strings.SplitN(line, "=", 2)` reduced to what the caller
uses: the part before the first '=' and the rest after it, or `none` when
the line contains no '=' (`len(kv) != 2`). -/
def splitFirstEq (s : List Char) : Option (List Char × List Char) :=
  if '=' ∈ s then
    some (s.takeWhile (fun c => c ≠ '='), (s.dropWhile (fun c => c ≠ '=')).drop 1)
  else none

example : splitFirstEq "PATH=$BASE/bin=x".data =
  some ("PATH".data, "$BASE/bin=x".data) := by decide
example : splitFirstEq "MALFORMED".data = none := by decide

/-- Shell special variable names recognized by os.Expand's getShellName. -/
def isShellSpecialVar (c : Char) : Bool :=
  c = '*' || c = '#' || c = '$' || c = '@' || c = '!' || c = '?' ||
    c = '-' || ('0' ≤ c && c ≤ '9')

/-- Go's isAlphaNum: underscore, ASCII letters and digits. -/
def goIsAlphaNum (c : Char) : Bool :=
  c = '_' || ('a' ≤ c && c ≤ 'z') || ('A' ≤ c && c ≤ 'Z') ||
    ('0' ≤ c && c ≤ '9')

/-- Brace-scanning loop of getShellName: find the closing brace; "${}" is
invalid syntax eating two bytes, an unterminated "${" eats one byte. -/
def braceScan (t : List Char) : List Char × Nat :=
  if '}' ∈ t then
    let u := t.takeWhile (fun c => c ≠ '}')
    if u.isEmpty then ([], 2) else (u, u.length + 2)
  else ([], 1)

/-- Embedding of os.Expand's getShellName: the variable name following a
dollar sign and the number of input bytes it consumes. -/
def getShellName (s : List Char) : List Char × Nat :=
  match s with
  | [] => ([], 0)
  | c :: t =>
    if c = '{' then
      match t with
      | c1 :: '}' :: _ => if isShellSpecialVar c1 then ([c1], 3) else braceScan t
      | _ => braceScan t
    else if isShellSpecialVar c then ([c], 1)
    else
      let name := (c :: t).takeWhile goIsAlphaNum
      (name, name.length)

/-- os.Getenv: an unset variable reads as the empty string. -/
def goGetenv (env : String → Option String) (name : String) : String :=
  (env name).getD ""

/-- Embedding of `os.ExpandEnv` (os.Expand over os.Getenv): dollar
references are replaced by the named variable's value; invalid syntax is
eaten; a dollar not followed by a name (or at end of input) stays. -/
def expandLoop (env : String → Option String) : Nat → List Char → List Char
  | 0, _ => []
  | _ + 1, [] => []
  | fuel + 1, c :: rest =>
    if c = '$' then
      if rest.isEmpty then ['$']
      else
        let n := getShellName rest
        let tail := expandLoop env fuel (rest.drop n.2)
        if n.1.isEmpty && n.2 > 0 then tail
        else if n.1.isEmpty then '$' :: tail
        else (goGetenv env (String.mk n.1)).data ++ tail
    else c :: expandLoop env fuel rest

/-- Entry point of the expansion: every loop iteration consumes at least one
input byte, so fuel equal to the input length runs the loop to completion. -/
def expandEnv (env : String → Option String) (s : List Char) : List Char :=
  expandLoop env s.length s

/-- Per-line logic of loadExtraEnvFromFile: trim, skip blank lines and
comment lines, skip lines without '=', otherwise expand the value through
the process environment; `none` is a skipped line. -/
def parseEnvLine (env : String → Option String) (line : List Char) :
    Option (String × String) :=
  let t := goTrimSpace line
  if t.isEmpty then none
  else if t.head? = some '#' then none
  else
    match splitFirstEq t with
    | none => none
    | some (k, v) => some (String.mk k, String.mk (expandEnv env v))

/-- Go map write on a string-keyed map modelled as an association list. -/
def envStore (m : List (String × String)) (k v : String) :
    List (String × String) :=
  match m with
  | [] => [(k, v)]
  | (k0, v0) :: rest =>
    if k0 = k then (k0, v) :: rest else (k0, v0) :: envStore rest k v

/-- Go map read on the same representation. -/
def envLookup : List (String × String) → String → Option String
  | [], _ => none
  | (k0, v0) :: rest, k => if k0 = k then some v0 else envLookup rest k

/-- Embedding of `loadExtraEnvFromFile`: reads the path from EXECD_ENVS and
the file contents through `fs`; returns the nil map when the variable is
empty or the file is unreadable, otherwise folds the parsed lines into a
fresh map. -/
def loadExtraEnvFromFile (env : String → Option String)
    (fs : String → Option String) : Option (List (String × String)) :=
  let path := goGetenv env "EXECD_ENVS"
  if path = "" then none
  else
    match fs path with
    | none => none
    | some data =>
      some ((splitLinesLF data.data).foldl (fun acc line =>
        match parseEnvLine env line with
        | none => acc
        | some (k, v) => envStore acc k v) [])

/-- The key-value map mergeEnvs builds: base entries split at the first '='
(entries without '=' are dropped), then the extra map overlaid so the extra
value wins on a key collision. -/
def mergedEnvMap (base : List String) (extra : List (String × String)) :
    List (String × String) :=
  let m1 := base.foldl (fun acc kv =>
    match splitFirstEq kv.data with
    | some (k, v) => envStore acc (String.mk k) (String.mk v)
    | none => acc) []
  extra.foldl (fun acc p => envStore acc p.1 p.2) m1

/-- Embedding of `mergeEnvs`: base is returned unchanged when the extra map
is nil or empty; otherwise the merged map is rendered as KEY=VALUE entries
(Go map iteration order is unspecified; the list order stands for one
order). -/
def mergeEnvs (base : List String) (extra : Option (List (String × String))) :
    List String :=
  match extra with
  | none => base
  | some ex =>
    if ex.isEmpty then base
    else (mergedEnvMap base ex).map (fun p => p.1 ++ "=" ++ p.2)

/-- The last binding for a key in an iterated entry list (later writes to a
Go map overwrite earlier ones). -/
def lastBinding (l : List (String × String)) (k : String) : Option String :=
  match l with
  | [] => none
  | p :: rest =>
    match lastBinding rest k with
    | some v => some v
    | none => if p.1 = k then some p.2 else none

/-- The well-formed KEY=VALUE entries of the daemon environment slice, in
order. -/
def baseKVs (base : List String) : List (String × String) :=
  base.filterMap (fun kv =>
    (splitFirstEq kv.data).map (fun p => (String.mk p.1, String.mk p.2)))

/-- Environment used by the expansion examples, mirroring the repository's
Go test TestLoadExtraEnvFromFileParsesAndExpands. -/
def demoProcEnv : String → Option String := fun n =>
  if n = "BASE_DIR" then some "/opt/base"
  else if n = "EXECD_ENVS" then some "/tmp/envfile"
  else none

example : expandEnv demoProcEnv "$BASE_DIR/bin".data = "/opt/base/bin".data := by
  decide
example : expandEnv demoProcEnv "a$\x7bBASE_DIR\x7db".data = "a/opt/baseb".data := by
  decide
example : expandEnv demoProcEnv "$UNSET!".data = "!".data := by decide
example :
    loadExtraEnvFromFile demoProcEnv
      (fun p => if p = "/tmp/envfile" then
        some "# comment\nFOO=bar\nPATH=$BASE_DIR/bin\nMALFORMED\nEMPTY=\n"
        else none) =
      some [("FOO", "bar"), ("PATH", "/opt/base/bin"), ("EMPTY", "")] := by decide

/-- A list all of whose elements satisfy the predicate is its own
takeWhile. -/
theorem takeWhile_all {p : Char → Bool} (l : List Char)
    (h : ∀ x ∈ l, p x = true) : l.takeWhile p = l := by
  induction l with
  | nil => rfl
  | cons a rest ih =>
    rw [List.takeWhile_cons, if_pos (h a (by simp))]
    rw [ih (fun x hx => h x (by simp [hx]))]

/-- The take/drop decomposition of a well-formed KEY=VALUE line at its
first equals sign. -/
theorem splitEq_parts (k v : List Char) (hk : '=' ∉ k) :
    (k ++ '=' :: v).takeWhile (fun c => c ≠ '=') = k ∧
    (k ++ '=' :: v).dropWhile (fun c => c ≠ '=') = '=' :: v := by
  induction k with
  | nil => constructor <;> simp [List.takeWhile_cons, List.dropWhile_cons]
  | cons a rest ih =>
    simp only [List.mem_cons, not_or] at hk
    have ha2 : a ≠ '=' := fun h => hk.1 h.symm
    have hr := ih hk.2
    have hr1 := hr.1
    have hr2 := hr.2
    simp only [ne_eq, decide_not] at hr1 hr2
    constructor
    · simp only [List.cons_append, List.takeWhile_cons]
      simp [ha2, hr1]
    · simp only [List.cons_append, List.dropWhile_cons]
      simp [ha2, hr2]

/-- Splitting a well-formed KEY=VALUE line at its first equals sign. -/
theorem splitFirstEq_append (k v : List Char) (hk : '=' ∉ k) :
    splitFirstEq (k ++ '=' :: v) = some (k, v) := by
  have hmem : '=' ∈ k ++ '=' :: v := by simp
  have hsplit := splitEq_parts k v hk
  rw [splitFirstEq, if_pos hmem, hsplit.1, hsplit.2]
  simp

/-- getShellName on a nonempty alphanumeric run whose head is not a shell
special variable consumes the whole run as the name. -/
theorem getShellName_alphanum (c : Char) (cs : List Char)
    (hall : ∀ x ∈ c :: cs, goIsAlphaNum x = true)
    (hsp : isShellSpecialVar c = false) :
    getShellName (c :: cs) = (c :: cs, cs.length + 1) := by
  have hc : goIsAlphaNum c = true := hall c (by simp)
  have hcb : ¬ (c = '{') := by
    intro h; rw [h] at hc; exact absurd hc (by decide)
  have htake : (c :: cs).takeWhile goIsAlphaNum = c :: cs :=
    takeWhile_all (c :: cs) hall
  simp [getShellName, hcb, hsp, htake]

/-- Looking a key up after one Go map write. -/
theorem envLookup_envStore (m : List (String × String)) (k v k' : String) :
    envLookup (envStore m k v) k' =
      if k = k' then some v else envLookup m k' := by
  induction m with
  | nil => by_cases h : k = k' <;> simp [envStore, envLookup, h]
  | cons p rest ih =>
    obtain ⟨k0, v0⟩ := p
    by_cases h0 : k0 = k
    · subst h0
      by_cases h1 : k0 = k' <;> simp [envStore, envLookup, h1]
    · by_cases h1 : k0 = k'
      · subst h1
        have hkk : ¬ (k = k0) := fun h => h0 h.symm
        simp [envStore, envLookup, h0, hkk]
      · simp [envStore, envLookup, h0, h1, ih]

/-- Folding iterated writes into a map: the last binding for a key wins,
and keys never written keep their previous value. -/
theorem envLookup_foldStore (l : List (String × String)) :
    ∀ m k, envLookup (l.foldl (fun acc p => envStore acc p.1 p.2) m) k =
      (match lastBinding l k with
        | some v => some v
        | none => envLookup m k) := by
  induction l with
  | nil => intro m k; simp [lastBinding]
  | cons p rest ih =>
    intro m k
    rw [List.foldl_cons, ih]
    cases hrest : lastBinding rest k with
    | some v => simp [lastBinding, hrest]
    | none =>
      simp only [lastBinding, hrest]
      rw [envLookup_envStore]
      by_cases h : p.1 = k <;> simp [h]

/-- The base-environment fold of mergeEnvs equals folding the well-formed
KEY=VALUE entries. -/
theorem baseFold_eq (base : List String) :
    ∀ m, base.foldl (fun acc kv =>
        match splitFirstEq kv.data with
        | some (k, v) => envStore acc (String.mk k) (String.mk v)
        | none => acc) m =
      (baseKVs base).foldl (fun acc p => envStore acc p.1 p.2) m := by
  induction base with
  | nil => intro m; rfl
  | cons kv rest ih =>
    intro m
    cases hsp : splitFirstEq kv.data with
    | none =>
      have hb : baseKVs (kv :: rest) = baseKVs rest := by
        simp [baseKVs, List.filterMap_cons, hsp]
      rw [hb, List.foldl_cons, hsp]
      exact ih m
    | some p =>
      obtain ⟨k, v⟩ := p
      have hb : baseKVs (kv :: rest) =
          (String.mk k, String.mk v) :: baseKVs rest := by
        simp [baseKVs, List.filterMap_cons, hsp]
      rw [hb, List.foldl_cons, List.foldl_cons, hsp]
      exact ih (envStore m (String.mk k) (String.mk v))

/-- C8: per line of the EXECD_ENVS file, blank lines, comment lines and
lines without an equals sign are skipped, and a KEY=VALUE line contributes
the entry (KEY, VALUE with dollar references expanded from the process
environment); entries land in a map where later lines override earlier
ones; and the merge overlay makes the file-sourced value win on every key
collision with the daemon environment while preserving non-colliding
daemon entries. -/
theorem extraEnv_load_and_merge_contract (env : String → Option String)
    (base : List String) (extra : List (String × String)) :
    (∀ line, (goTrimSpace line).isEmpty = true → parseEnvLine env line = none) ∧
    (∀ line, (goTrimSpace line).head? = some '#' → parseEnvLine env line = none) ∧
    (∀ line, '=' ∉ goTrimSpace line → parseEnvLine env line = none) ∧
    (∀ line k v, goTrimSpace line = k ++ '=' :: v → '=' ∉ k →
      (goTrimSpace line).head? ≠ some '#' →
      parseEnvLine env line = some (String.mk k, String.mk (expandEnv env v))) ∧
    (∀ n : List Char, n ≠ [] → (∀ c ∈ n, goIsAlphaNum c = true) →
      isShellSpecialVar n.headI = false →
      expandEnv env ('$' :: n) = (goGetenv env (String.mk n)).data) ∧
    (∀ m k v k', envLookup (envStore m k v) k' =
      if k = k' then some v else envLookup m k') ∧
    (∀ k, envLookup (mergedEnvMap base extra) k =
      (match lastBinding extra k with
        | some v => some v
        | none => lastBinding (baseKVs base) k)) ∧
    (extra ≠ [] → mergeEnvs base (some extra) =
      (mergedEnvMap base extra).map (fun p => p.1 ++ "=" ++ p.2)) := by
  refine ⟨?_, ?_, ?_, ?_, ?_, envLookup_envStore, ?_, ?_⟩
  · intro line h
    simp [parseEnvLine, h]
  · intro line h
    have hne : (goTrimSpace line).isEmpty = false := by
      cases hteq : goTrimSpace line with
      | nil => rw [hteq] at h; simp at h
      | cons a t => simp
    simp [parseEnvLine, hne, h]
  · intro line h
    by_cases he : (goTrimSpace line).isEmpty = true
    · simp [parseEnvLine, he]
    · by_cases hh : (goTrimSpace line).head? = some '#'
      · simp [parseEnvLine, he, hh]
      · have hsp : splitFirstEq (goTrimSpace line) = none := by
          rw [splitFirstEq, if_neg h]
        simp [parseEnvLine, he, hh, hsp]
  · intro line k v ht hk hh
    have he : (goTrimSpace line).isEmpty = false := by
      rw [ht]
      cases k <;> simp
    have hsp : splitFirstEq (goTrimSpace line) = some (k, v) := by
      rw [ht]
      exact splitFirstEq_append k v hk
    simp [parseEnvLine, he, hh, hsp]
  · intro n hn hall hsp
    obtain ⟨c, cs, rfl⟩ := List.exists_cons_of_ne_nil hn
    have hsn : getShellName (c :: cs) = (c :: cs, cs.length + 1) :=
      getShellName_alphanum c cs hall (by simpa using hsp)
    have hstep : expandEnv env ('$' :: c :: cs) =
        (let n := getShellName (c :: cs)
         let tail := expandLoop env (cs.length + 1) ((c :: cs).drop n.2)
         if n.1.isEmpty && n.2 > 0 then tail
         else if n.1.isEmpty then '$' :: tail
         else (goGetenv env (String.mk n.1)).data ++ tail) := rfl
    rw [hstep]
    simp only [hsn]
    have hdrop : (c :: cs).drop (cs.length + 1) = [] := by
      have h1 : (c :: cs).length = cs.length + 1 := rfl
      rw [← h1, List.drop_length]
    rw [hdrop]
    simp [expandLoop]
  · intro k
    have hm : mergedEnvMap base extra =
        extra.foldl (fun acc p => envStore acc p.1 p.2)
          ((baseKVs base).foldl (fun acc p => envStore acc p.1 p.2) []) := by
      simp only [mergedEnvMap]
      rw [baseFold_eq base []]
    rw [hm, envLookup_foldStore extra _ k]
    cases hx : lastBinding extra k with
    | some v => simp
    | none =>
      simp only []
      rw [envLookup_foldStore (baseKVs base) [] k]
      cases hb : lastBinding (baseKVs base) k with
      | some v => simp
      | none => simp [envLookup]
  · intro hex
    have : extra.isEmpty = false := by
      cases extra with
      | nil => exact absurd rfl hex
      | cons a t => rfl
    simp [mergeEnvs, this]

/-- Witness for the loader/merge contract at concrete lines, expansion and
maps, matching the repository's own env tests. -/
theorem extraEnv_load_and_merge_contract_witness :
    parseEnvLine demoProcEnv " ".data = none ∧
    parseEnvLine demoProcEnv "# comment".data = none ∧
    parseEnvLine demoProcEnv "MALFORMED".data = none ∧
    parseEnvLine demoProcEnv "PATH=$BASE_DIR/bin".data =
      some ("PATH", "/opt/base/bin") ∧
    expandEnv demoProcEnv ('$' :: "BASE_DIR".data) = "/opt/base".data ∧
    envLookup (envStore [("A", "1")] "B" "2") "B" = some "2" ∧
    envLookup (mergedEnvMap ["A=1", "B=2"] [("B", "override"), ("C", "3")]) "B" =
      some "override" ∧
    envLookup (mergedEnvMap ["A=1", "B=2"] [("B", "override"), ("C", "3")]) "A" =
      some "1" ∧
    mergeEnvs ["A=1", "B=2"] (some [("B", "override"), ("C", "3")]) =
      (mergedEnvMap ["A=1", "B=2"] [("B", "override"), ("C", "3")]).map
        (fun p => p.1 ++ "=" ++ p.2) := by
  have h := extraEnv_load_and_merge_contract demoProcEnv ["A=1", "B=2"]
    [("B", "override"), ("C", "3")]
  refine ⟨h.1 " ".data (by decide),
    h.2.1 "# comment".data (by decide),
    h.2.2.1 "MALFORMED".data (by decide), ?_, ?_,
    h.2.2.2.2.2.1 [("A", "1")] "B" "2" "B", ?_, ?_,
    h.2.2.2.2.2.2.2 (by decide)⟩
  · have h4 := h.2.2.2.1 "PATH=$BASE_DIR/bin".data
      "PATH".data "$BASE_DIR/bin".data (by decide) (by decide) (by decide)
    rw [h4]
    decide
  · have h5 := h.2.2.2.2.1 "BASE_DIR".data (by decide) (by decide) (by decide)
    rw [h5]
    decide
  · rw [h.2.2.2.2.2.2.1 "B"]
    decide
  · rw [h.2.2.2.2.2.2.1 "A"]
    decide

end Execd
